import Mathlib

/-!
Verification of the `async-socket` crate against its specification.

The development shallowly embeds the data structures and operations of the
crate: `CircularBuf` (src/util/circular_buf.rs), `RawSlab`
(src/util/raw_slab.rs), the per-socket `Common` state (src/io/common.rs), and
the four operation components `Sender`, `Receiver`, `Acceptor`, `Connector`
(src/io/*.rs).  Byte memory is modelled as a function `Nat → Nat` from
offsets to byte values; cursors are plain naturals with explicit `% len`
arithmetic; fallible or panicking paths return `Option`.
-/

namespace AsyncSocket

/-! ## CircularBuf (src/deps/async-socket/src/util/circular_buf.rs)

The raw byte storage behind the buffer's `ptr` is modelled as a function
`data : Nat → Nat` giving the byte stored at each offset.  `ptr` itself is
kept as an abstract base address so that the claims about it being left
unchanged can be stated. -/

structure CircularBuf where
  ptr : Nat
  len : Nat
  head : Nat
  tail : Nat
  data : Nat → Nat

namespace CircularBuf

/-- `CircularBuf::from_raw_parts`. -/
def from_raw_parts (ptr len : Nat) (data : Nat → Nat) : CircularBuf :=
  { ptr := ptr, len := len, head := 0, tail := 0, data := data }

/-- `CircularBuf::capacity`. -/
def capacity (cb : CircularBuf) : Nat := cb.len - 1

/-- `CircularBuf::consumable`. -/
def consumable (cb : CircularBuf) : Nat :=
  if cb.head ≤ cb.tail then cb.tail - cb.head else (cb.len - cb.head) + cb.tail

/-- `CircularBuf::producible`. -/
def producible (cb : CircularBuf) : Nat := cb.capacity - cb.consumable

/-- `CircularBuf::is_full`. -/
def is_full (cb : CircularBuf) : Bool := cb.producible == 0

/-- `CircularBuf::is_empty`. -/
def is_empty (cb : CircularBuf) : Bool := cb.consumable == 0

/-- The two index ranges handed to the producer closure by
`with_producer_view`, as half-open `(start, stop)` pairs. -/
def producerRanges (cb : CircularBuf) : (Nat × Nat) × (Nat × Nat) :=
  if cb.tail ≥ cb.head then
    if cb.head > 0 then ((cb.tail, cb.len), (0, cb.head - 1))
    else if cb.tail < cb.len - 1 then ((cb.tail, cb.len - 1), (0, 0))
    else ((0, 0), (0, 0))
  else if cb.tail < cb.head - 1 then ((cb.tail, cb.head - 1), (0, 0))
  else ((0, 0), (0, 0))

/-- The two index ranges handed to the consumer closure by
`with_consumer_view`. -/
def consumerRanges (cb : CircularBuf) : (Nat × Nat) × (Nat × Nat) :=
  if cb.head ≤ cb.tail then ((cb.head, cb.tail), (0, 0))
  else ((cb.head, cb.len), (0, cb.tail))

/-- The bytes stored in a half-open index range, as a list
(the contents of one of the slices handed to a view closure). -/
def readRange (data : Nat → Nat) (r : Nat × Nat) : List Nat :=
  (List.range (r.2 - r.1)).map (fun i => data (r.1 + i))

/-- Overwrite the bytes starting at offset `s` with the list `src`
(the effect of a view closure writing into one of its slices). -/
def writeRange (data : Nat → Nat) (s : Nat) (src : List Nat) : Nat → Nat :=
  fun i => if s ≤ i ∧ i < s + src.length then src.getD (i - s) 0 else data i

/-- `CircularBuf::with_producer_view`.  The in-place mutation of the two
slices by the closure is modelled by the closure returning the final
contents of each slice together with the byte count; contents beyond a
slice's length are discarded, as a slice cannot grow. -/
def with_producer_view (cb : CircularBuf)
    (f : List Nat → List Nat → Nat × List Nat × List Nat) : Nat × CircularBuf :=
  let r := producerRanges cb
  let part0 := readRange cb.data r.1
  let part1 := readRange cb.data r.2
  let res := f part0 part1
  let bytes_produced := res.1
  let data1 := writeRange cb.data r.1.1 (res.2.1.take part0.length)
  let data2 := writeRange data1 r.2.1 (res.2.2.take part1.length)
  (bytes_produced, { cb with data := data2, tail := (cb.tail + bytes_produced) % cb.len })

/-- `CircularBuf::with_consumer_view`.  The closure only reads the two
slices; any value it computes from them (e.g. bytes copied out to a caller
buffer, or iovecs built over them) is returned through `α`. -/
def with_consumer_view (cb : CircularBuf) {α : Type}
    (f : List Nat → List Nat → Nat × α) : (Nat × α) × CircularBuf :=
  let r := consumerRanges cb
  let part0 := readRange cb.data r.1
  let part1 := readRange cb.data r.2
  let res := f part0 part1
  let bytes_consumed := res.1
  ((bytes_consumed, res.2), { cb with head := (cb.head + bytes_consumed) % cb.len })

/-- `CircularBuf::produce`. -/
def produce (cb : CircularBuf) (buf : List Nat) : Nat × CircularBuf :=
  cb.with_producer_view (fun part0 part1 =>
    if buf.length ≤ part0.length then
      (buf.length, buf, part1)
    else
      let buf1 := buf.drop part0.length
      if buf1.length ≤ part1.length then
        (part0.length + buf1.length, buf.take part0.length, buf1)
      else
        (part0.length + part1.length, buf.take part0.length, buf1.take part1.length))

/-- `CircularBuf::produce_without_copy`. -/
def produce_without_copy (cb : CircularBuf) (len : Nat) : Nat × CircularBuf :=
  cb.with_producer_view (fun part0 part1 =>
    (len.min (part0.length + part1.length), part0, part1))

/-- `CircularBuf::consume`.  Takes the length of the caller's output buffer
and additionally returns the bytes copied into it. -/
def consume (cb : CircularBuf) (bufLen : Nat) : (Nat × List Nat) × CircularBuf :=
  cb.with_consumer_view (fun part0 part1 =>
    if bufLen ≤ part0.length then
      (bufLen, part0.take bufLen)
    else
      let rem := bufLen - part0.length
      if rem ≤ part1.length then
        (part0.length + rem, part0 ++ part1.take rem)
      else
        (part0.length + part1.length, part0 ++ part1))

/-- `CircularBuf::consume_without_copy`. -/
def consume_without_copy (cb : CircularBuf) (len : Nat) : Nat × CircularBuf :=
  let r := cb.with_consumer_view (fun part0 part1 =>
    (len.min (part0.length + part1.length), ()))
  (r.1.1, r.2)

/-- The structural invariant documented on the fields of `CircularBuf`:
`len > 0`, `0 <= head < len`, `0 <= tail < len`. -/
def wf (cb : CircularBuf) : Prop :=
  0 < cb.len ∧ cb.head < cb.len ∧ cb.tail < cb.len

instance (cb : CircularBuf) : Decidable (wf cb) := by
  unfold wf; infer_instance

/-- The abstract FIFO contents of the buffer: the `consumable` bytes
starting at `head`, wrapping modulo `len`. -/
def queueOf (cb : CircularBuf) : List Nat :=
  (List.range cb.consumable).map (fun i => cb.data ((cb.head + i) % cb.len))

end CircularBuf

/-! ## Sequences of CircularBuf operations -/

open CircularBuf

/-- A copying ring-buffer call: `produce(buf)` or `consume(buf)` (the
latter identified by the length of the caller's buffer). -/
inductive CopyOp where
  | prod (buf : List Nat)
  | cons (k : Nat)

/-- Run a sequence of `produce`/`consume` calls, collecting the bytes given
to `produce` and the bytes returned by `consume`, in call order. -/
def runOps (cb : CircularBuf) : List CopyOp → List Nat × List Nat × CircularBuf
  | [] => ([], [], cb)
  | CopyOp.prod buf :: ops =>
      let r := cb.produce buf
      let rest := runOps r.2 ops
      (buf ++ rest.1, rest.2.1, rest.2.2)
  | CopyOp.cons k :: ops =>
      let r := cb.consume k
      let rest := runOps r.2 ops
      (rest.1, r.1.2 ++ rest.2.1, rest.2.2)

/-- Check that every `produce` in the sequence fully fits, i.e. the bytes
outstanding never exceed `capacity = len - 1`. -/
def fitsRun (cb : CircularBuf) : List CopyOp → Bool
  | [] => true
  | CopyOp.prod buf :: ops =>
      if buf.length ≤ cb.producible then fitsRun (cb.produce buf).2 ops else false
  | CopyOp.cons k :: ops => fitsRun (cb.consume k).2 ops

/-- Any of the four state-mutating CircularBuf calls. -/
inductive BufOp where
  | prod (buf : List Nat)
  | cons (k : Nat)
  | prodNC (n : Nat)
  | consNC (n : Nat)

/-- The state transition of one CircularBuf call. -/
def applyOp (cb : CircularBuf) : BufOp → CircularBuf
  | BufOp.prod buf => (cb.produce buf).2
  | BufOp.cons k => (cb.consume k).2
  | BufOp.prodNC n => (cb.produce_without_copy n).2
  | BufOp.consNC n => (cb.consume_without_copy n).2

/-- Run a sequence of CircularBuf calls for their state effect only. -/
def runState (cb : CircularBuf) (ops : List BufOp) : CircularBuf :=
  ops.foldl applyOp cb

/-- The cursor-discipline property of C10 for one buffer state: every
CircularBuf operation keeps `ptr` and `len` (hence `capacity`) unchanged,
advances exactly one cursor — by the reported byte count, modulo `len` —
and preserves the `0 ≤ head, tail < len` bounds (for the raw views, under
the documented bound on the closure's reported count). -/
def cursorDiscipline (cb : CircularBuf) : Prop :=
  (∀ buf : List Nat,
    (cb.produce buf).2.ptr = cb.ptr ∧ (cb.produce buf).2.len = cb.len
    ∧ (cb.produce buf).2.head = cb.head
    ∧ (cb.produce buf).2.tail = (cb.tail + (cb.produce buf).1) % cb.len
    ∧ (cb.produce buf).2.capacity = cb.capacity ∧ wf (cb.produce buf).2)
  ∧ (∀ k : Nat,
    (cb.consume k).2.ptr = cb.ptr ∧ (cb.consume k).2.len = cb.len
    ∧ (cb.consume k).2.tail = cb.tail
    ∧ (cb.consume k).2.head = (cb.head + (cb.consume k).1.1) % cb.len
    ∧ (cb.consume k).2.capacity = cb.capacity ∧ wf (cb.consume k).2)
  ∧ (∀ n : Nat,
    (cb.produce_without_copy n).2.ptr = cb.ptr
    ∧ (cb.produce_without_copy n).2.len = cb.len
    ∧ (cb.produce_without_copy n).2.head = cb.head
    ∧ (cb.produce_without_copy n).2.tail
        = (cb.tail + (cb.produce_without_copy n).1) % cb.len
    ∧ (cb.produce_without_copy n).2.capacity = cb.capacity
    ∧ wf (cb.produce_without_copy n).2)
  ∧ (∀ n : Nat,
    (cb.consume_without_copy n).2.ptr = cb.ptr
    ∧ (cb.consume_without_copy n).2.len = cb.len
    ∧ (cb.consume_without_copy n).2.tail = cb.tail
    ∧ (cb.consume_without_copy n).2.head
        = (cb.head + (cb.consume_without_copy n).1) % cb.len
    ∧ (cb.consume_without_copy n).2.capacity = cb.capacity
    ∧ wf (cb.consume_without_copy n).2)
  ∧ (∀ f : List Nat → List Nat → Nat × List Nat × List Nat,
    (cb.with_producer_view f).2.ptr = cb.ptr
    ∧ (cb.with_producer_view f).2.len = cb.len
    ∧ (cb.with_producer_view f).2.head = cb.head
    ∧ (cb.with_producer_view f).2.tail
        = (cb.tail + (cb.with_producer_view f).1) % cb.len
    ∧ (cb.with_producer_view f).2.capacity = cb.capacity
    ∧ ((cb.with_producer_view f).1 ≤ cb.producible → wf (cb.with_producer_view f).2))
  ∧ (∀ (α : Type) (f : List Nat → List Nat → Nat × α),
    (cb.with_consumer_view f).2.ptr = cb.ptr
    ∧ (cb.with_consumer_view f).2.len = cb.len
    ∧ (cb.with_consumer_view f).2.tail = cb.tail
    ∧ (cb.with_consumer_view f).2.head
        = (cb.head + (cb.with_consumer_view f).1.1) % cb.len
    ∧ (cb.with_consumer_view f).2.capacity = cb.capacity
    ∧ ((cb.with_consumer_view f).1.1 ≤ cb.consumable → wf (cb.with_consumer_view f).2))

/-! ## Events and per-socket shared state (src/io/common.rs) -/

/-- A readiness bitmask with the IN/OUT/ERR/HUP event kinds. -/
structure Events where
  rIn : Bool
  rOut : Bool
  rErr : Bool
  rHup : Bool
deriving DecidableEq

namespace Events

def empty : Events := ⟨false, false, false, false⟩

def IN : Events := ⟨true, false, false, false⟩

def OUT : Events := ⟨false, true, false, false⟩

def ERR : Events := ⟨false, false, true, false⟩

def HUP : Events := ⟨false, false, false, true⟩

/-- `Pollee::add`: raise the events of the mask. -/
def add (e m : Events) : Events :=
  ⟨e.rIn || m.rIn, e.rOut || m.rOut, e.rErr || m.rErr, e.rHup || m.rHup⟩

/-- `Pollee::remove`: clear the events of the mask. -/
def remove (e m : Events) : Events :=
  ⟨e.rIn && !m.rIn, e.rOut && !m.rOut, e.rErr && !m.rErr, e.rHup && !m.rHup⟩

end Events

/-- `libc::EPIPE`. -/
def EPIPE : Int := 32

/-- `libc::EAGAIN`. -/
def EAGAIN : Int := 11

/-- `Common`: the per-socket shared state — file descriptor, readiness
pollee, sticky error.  The io_uring provider is out of scope. -/
structure CommonState where
  fd : Int
  pollee : Events
  error : Option Int
deriving DecidableEq

/-- `Common::set_error` (last write wins). -/
def CommonState.set_error (c : CommonState) (error : Int) : CommonState :=
  { c with error := some error }

/-! ## Sender (src/io/sender.rs) -/

/-- `sender::Inner`: the send ring buffer, the at-most-one pending flush
handle (kept as its presence), and the shutdown flag.  The iovec scratch
area only ever holds pointers into the ring buffer and is not modelled. -/
structure SenderInner where
  buf : CircularBuf
  pending_io : Bool
  is_shutdown : Bool

/-- A sender with its shared `Common` state plus one observable: whether
`libc::shutdown(fd, SHUT_WR)` has been issued. -/
structure SenderSys where
  inner : SenderInner
  common : CommonState
  shutWr : Bool

/-- `Sender::flush_buf`: build iovecs over the consumer view (consuming
zero bytes) and submit an async writev, leaving a pending handle. -/
def flush_buf (s : SenderSys) : SenderSys :=
  let v := s.inner.buf.with_consumer_view (fun part0 part1 => (0, (part0, part1)))
  { s with inner := { s.inner with buf := v.2, pending_io := true } }

/-- `Sender::try_write`. -/
def try_write (s : SenderSys) (buf : List Nat) : Int × SenderSys :=
  if s.inner.is_shutdown then (-EPIPE, s)
  else
    match s.common.error with
    | some error => (error, s)
    | none =>
      if buf.length = 0 then (0, s)
      else
        let r := s.inner.buf.produce buf
        let nbytes := r.1
        let s1 := { s with inner := { s.inner with buf := r.2 } }
        let s2 :=
          if s1.inner.buf.is_full then
            { s1 with common :=
              { s1.common with pollee := s1.common.pollee.remove Events.OUT } }
          else s1
        if nbytes = 0 then (-EAGAIN, s2)
        else
          let s3 := if s2.inner.pending_io = false then flush_buf s2 else s2
          (Int.ofNat nbytes, s3)

/-- First phase of the completion callback built in `Sender::flush_buf`
(`complete_fn`): release the pending handle and handle the two cases of
success and error. -/
def sender_complete_handle (s : SenderSys) (retval : Int) : SenderSys :=
  let s0 := { s with inner := { s.inner with pending_io := false } }
  if 0 ≤ retval then
    let nbytes := retval.toNat
    let sa := { s0 with inner := { s0.inner with
      buf := (s0.inner.buf.consume_without_copy nbytes).2 } }
    if sa.inner.is_shutdown = false then
      { sa with common := { sa.common with pollee := sa.common.pollee.add Events.OUT } }
    else sa
  else
    let consumable_bytes := s0.inner.buf.consumable
    let sa := { s0 with inner := { s0.inner with
      buf := (s0.inner.buf.consume_without_copy consumable_bytes).2 } }
    let c := sa.common.set_error retval
    { sa with common := { c with pollee := c.pollee.add Events.ERR } }

/-- Second phase of `complete_fn`: flush again if data remains in the
buffer, otherwise issue the deferred `SHUT_WR` if shutdown was requested. -/
def sender_complete_finish (s1 : SenderSys) : SenderSys :=
  if s1.inner.buf.is_empty = false then flush_buf s1
  else if s1.inner.is_shutdown then { s1 with shutWr := true }
  else s1

/-- The completion callback built in `Sender::flush_buf` (`complete_fn`). -/
def sender_complete (s : SenderSys) (retval : Int) : SenderSys :=
  sender_complete_finish (sender_complete_handle s retval)

/-- `Sender::shutdown`. -/
def sender_shutdown (s : SenderSys) : SenderSys :=
  let s1 := { s with inner := { s.inner with is_shutdown := true } }
  if !s1.inner.pending_io && s1.inner.buf.is_empty then
    { s1 with shutWr := true }
  else s1

/-- The contract of `Sender::try_write` stated by C3: `EPIPE` after
shutdown, the sticky error next, `0` for an empty input; otherwise as many
bytes as fit are buffered, OUT readiness is cleared if the buffer becomes
full, `-EAGAIN` is returned exactly when zero bytes could be buffered, and
otherwise the positive byte count is returned with a flush in flight. -/
def tryWriteContract (s : SenderSys) (buf : List Nat) : Prop :=
  (s.inner.is_shutdown = true → try_write s buf = (-EPIPE, s))
  ∧ (∀ e : Int, s.inner.is_shutdown = false → s.common.error = some e →
      try_write s buf = (e, s))
  ∧ (s.inner.is_shutdown = false → s.common.error = none → buf.length = 0 →
      try_write s buf = (0, s))
  ∧ (s.inner.is_shutdown = false → s.common.error = none → buf.length ≠ 0 →
      queueOf (try_write s buf).2.inner.buf
        = queueOf s.inner.buf ++ buf.take (min buf.length s.inner.buf.producible)
      ∧ ((try_write s buf).2.inner.buf.is_full = true →
          (try_write s buf).2.common.pollee.rOut = false)
      ∧ ((try_write s buf).1 = -EAGAIN ↔ min buf.length s.inner.buf.producible = 0)
      ∧ (0 < min buf.length s.inner.buf.producible →
          (try_write s buf).1 = Int.ofNat (min buf.length s.inner.buf.producible)
          ∧ (try_write s buf).2.inner.pending_io = true))

/-- The C6 deferred-close contract: `shutdown` does not issue `SHUT_WR`
while a flush is pending or bytes remain buffered; `SHUT_WR` is issued by
`shutdown` exactly when no flush is pending and the buffer is empty, and
by the flush completion callback only when it leaves the buffer empty with
shutdown requested; it is never issued while buffered bytes remain. -/
def deferredCloseContract (s : SenderSys) (retval : Int) : Prop :=
  ((s.inner.pending_io = true ∨ s.inner.buf.is_empty = false) →
      (sender_shutdown s).shutWr = s.shutWr)
  ∧ ((sender_shutdown s).shutWr = true ↔
      (s.shutWr = true ∨ (s.inner.pending_io = false ∧ s.inner.buf.is_empty = true)))
  ∧ (s.shutWr = false → (sender_complete s retval).shutWr = true →
      (sender_complete s retval).inner.is_shutdown = true
      ∧ (sender_complete s retval).inner.buf.is_empty = true)
  ∧ ((sender_complete s retval).inner.buf.is_empty = false →
      (sender_complete s retval).shutWr = s.shutWr)

/-! ## Receiver (src/io/receiver.rs) -/

/-- `receiver::Inner`: the receive ring buffer, the at-most-one pending
fill handle, and the sticky end-of-file flag.  The iovec scratch area is
not modelled. -/
structure ReceiverInner where
  buf : CircularBuf
  pending_io : Bool
  end_of_file : Bool

/-- A receiver with its shared `Common` state. -/
structure ReceiverSys where
  inner : ReceiverInner
  common : CommonState

/-- `Receiver::fill_buf`: build iovecs over the producer view (producing
zero bytes) and submit an async readv, leaving a pending handle. -/
def fill_buf (r : ReceiverSys) : ReceiverSys :=
  let v := r.inner.buf.with_producer_view (fun part0 part1 => (0, part0, part1))
  { r with inner := { r.inner with buf := v.2, pending_io := true } }

/-- `Receiver::try_read`.  Returns the code, the bytes copied into the
caller's buffer, and the successor state. -/
def try_read (r : ReceiverSys) (bufLen : Nat) : Int × List Nat × ReceiverSys :=
  if bufLen = 0 then (0, [], r)
  else
    let c := r.inner.buf.consume bufLen
    let nbytes := c.1.1
    let r1 := { r with inner := { r.inner with buf := c.2 } }
    let r2 :=
      if r1.inner.buf.is_empty then
        { r1 with common := { r1.common with pollee := r1.common.pollee.remove Events.IN } }
      else r1
    if r2.inner.end_of_file then (Int.ofNat nbytes, c.1.2, r2)
    else if nbytes = 0 then
      match r2.common.error with
      | some error => (error, c.1.2, r2)
      | none => (-EAGAIN, c.1.2, r2)
    else
      let r3 := if r2.inner.pending_io = false then fill_buf r2 else r2
      (Int.ofNat nbytes, c.1.2, r3)

/-- The completion callback built in `Receiver::fill_buf` (`complete_fn`). -/
def receiver_complete (r : ReceiverSys) (retval : Int) : ReceiverSys :=
  let r0 := { r with inner := { r.inner with pending_io := false } }
  if retval < 0 then
    let c := r0.common.set_error retval
    { r0 with common := { c with pollee := c.pollee.add Events.ERR } }
  else if retval = 0 then
    { r0 with
      inner := { r0.inner with end_of_file := true },
      common := { r0.common with pollee := r0.common.pollee.add Events.IN } }
  else
    let nbytes := retval.toNat
    let r1 := { r0 with inner := { r0.inner with
      buf := (r0.inner.buf.produce_without_copy nbytes).2 } }
    let r2 := if r1.inner.buf.is_full = false then fill_buf r1 else r1
    { r2 with common := { r2.common with pollee := r2.common.pollee.add Events.IN } }

/-- Run a sequence of `try_read` calls, collecting the returned codes. -/
def runReads (r : ReceiverSys) : List Nat → List Int
  | [] => []
  | k :: ks => (try_read r k).1 :: runReads (try_read r k).2.2 ks

/-- The contract of `Receiver::try_read` stated by C4: a zero-length read
returns 0 at once; otherwise available bytes are consumed from the ring
buffer, IN readiness is cleared when the buffer becomes empty, a positive
consumed count is returned as such, and when nothing was consumed the
result is 0 after end-of-file, else the sticky error, else `-EAGAIN`. -/
def tryReadContract (r : ReceiverSys) (k : Nat) : Prop :=
  (k = 0 → try_read r k = (0, [], r))
  ∧ (k ≠ 0 →
      (try_read r k).2.1 = (queueOf r.inner.buf).take k
      ∧ queueOf (try_read r k).2.2.inner.buf
          = (queueOf r.inner.buf).drop (min k r.inner.buf.consumable)
      ∧ ((try_read r k).2.2.inner.buf.is_empty = true →
          (try_read r k).2.2.common.pollee.rIn = false)
      ∧ (0 < min k r.inner.buf.consumable →
          (try_read r k).1 = Int.ofNat (min k r.inner.buf.consumable))
      ∧ (min k r.inner.buf.consumable = 0 →
          (r.inner.end_of_file = true → (try_read r k).1 = 0)
          ∧ (∀ e, r.inner.end_of_file = false → r.common.error = some e →
              (try_read r k).1 = e)
          ∧ (r.inner.end_of_file = false → r.common.error = none →
              (try_read r k).1 = -EAGAIN)))

/-- The C5 EOF-stickiness contract: a zero fill completion sets the
end-of-file flag without touching the sticky error; the flag is never
cleared by later completions or reads; and once the flag is set and the
ring buffer has drained, every subsequent read returns 0. -/
def eofStickyContract (r : ReceiverSys) : Prop :=
  ((receiver_complete r 0).inner.end_of_file = true)
  ∧ ((receiver_complete r 0).common.error = r.common.error)
  ∧ (∀ v : Int, r.inner.end_of_file = true →
      (receiver_complete r v).inner.end_of_file = true)
  ∧ (∀ k : Nat, r.inner.end_of_file = true →
      (try_read r k).2.2.inner.end_of_file = true)
  ∧ (r.inner.end_of_file = true → r.inner.buf.is_empty = true →
      ∀ ks : List Nat, ∀ x ∈ runReads r ks, x = 0)

/-! ## RawSlab (src/deps/async-socket/src/util/raw_slab.rs) -/

/-- `RawSlab<T>`: base pointer, fixed capacity, and the `Vec` of free
indexes (top of the stack at the end, matching `Vec::push`/`Vec::pop`).
Pointers are modelled as naturals counted in units of `T`. -/
structure RawSlab where
  buf_ptr : Nat
  buf_len : Nat
  free_indexes : List Nat
deriving DecidableEq

namespace RawSlab

/-- `RawSlab::new`: the free indexes are `(0..buf_len).rev()`, so index 0
is on top of the stack. -/
def new (buf_ptr : Nat) (buf_len : Nat) : RawSlab :=
  { buf_ptr := buf_ptr, buf_len := buf_len,
    free_indexes := (List.range buf_len).reverse }

/-- `RawSlab::alloc`: pop a free index off the `Vec` (its last element)
and return the pointer at that offset, or `None` when the slab is full. -/
def alloc (s : RawSlab) : Option Nat × RawSlab :=
  match s.free_indexes.getLast? with
  | none => (none, s)
  | some free_index =>
      (some (s.buf_ptr + free_index),
        { s with free_indexes := s.free_indexes.dropLast })

/-- `RawSlab::dealloc`: compute the index from pointer arithmetic and push
it back on the free list. -/
def dealloc (s : RawSlab) (ptr : Nat) : RawSlab :=
  { s with free_indexes := s.free_indexes ++ [ptr - s.buf_ptr] }

/-- `RawSlab::capacity`. -/
def capacity (s : RawSlab) : Nat := s.buf_len

/-- `RawSlab::allocated`. -/
def allocated (s : RawSlab) : Nat := s.capacity - s.free_indexes.length

end RawSlab

/-- One `RawSlab` call. -/
inductive SlabOp where
  | alloc
  | dealloc (ptr : Nat)

/-- Run a sequence of `RawSlab` calls for their state effect. -/
def runSlab (s : RawSlab) : List SlabOp → RawSlab
  | [] => s
  | SlabOp.alloc :: ops => runSlab (s.alloc).2 ops
  | SlabOp.dealloc p :: ops => runSlab (s.dealloc p) ops

/-- The C9 contract of `RawSlab::alloc`: it pops a free index and returns
the base pointer offset by that index — a pointer inside
`[buffer, buffer + capacity)` that is not handed out again until
deallocated — it returns `None` exactly when all `capacity` slots are
allocated, and `capacity` never changes. -/
def rawSlabContract (s : RawSlab) : Prop :=
  ((s.alloc).1 = none ↔ s.allocated = s.capacity)
  ∧ (∀ p s', s.alloc = (some p, s') →
      (∃ i ∈ s.free_indexes, p = s.buf_ptr + i)
      ∧ s.buf_ptr ≤ p ∧ p < s.buf_ptr + s.capacity
      ∧ s'.capacity = s.capacity
      ∧ (p - s.buf_ptr) ∉ s'.free_indexes
      ∧ s'.allocated = s.allocated + 1
      ∧ (∀ ops : List SlabOp,
          (∀ q, SlabOp.dealloc q ∈ ops → q ≠ p ∧ s.buf_ptr ≤ q) →
          (p - s.buf_ptr) ∉ (runSlab s' ops).free_indexes))
  ∧ (∀ (t : RawSlab) (p : Nat), t.buf_ptr = s.buf_ptr → s.buf_ptr ≤ p →
      (p - s.buf_ptr) ∉ t.free_indexes → (t.alloc).1 ≠ some p)
  ∧ (∀ ops : List SlabOp, (runSlab s ops).capacity = s.capacity
      ∧ (runSlab s ops).buf_ptr = s.buf_ptr)

/-! ## Connector (src/io/connector.rs) -/

/-- `connector::Inner` together with the connector's private pollee: at
most one pending connect, the shutdown flag, and the pinned address
storage. -/
structure ConnectorState where
  pending_io : Bool
  is_shutdown : Bool
  addrMem : Nat
  private_pollee : Events

/-- The synchronous prefix of `Connector::connect`: after `shutdown` it
returns `EPIPE` immediately and submits nothing; otherwise it copies the
target address into pinned storage and submits the async connect.  A
`none` code means the caller proceeds to wait for the completion. -/
def connect (cn : ConnectorState) (c : CommonState) (addr : Nat) :
    Option Int × ConnectorState × CommonState :=
  if cn.is_shutdown then (some (-EPIPE), cn, c)
  else (none, { cn with addrMem := addr, pending_io := true }, c)

/-- `Connector::shutdown`: set the flag and raise HUP on the private
pollee (not on the shared one) to wake a blocked `connect`. -/
def connector_shutdown (cn : ConnectorState) (c : CommonState) :
    ConnectorState × CommonState :=
  ({ cn with
      is_shutdown := true
      private_pollee := cn.private_pollee.add Events.HUP }, c)

/-! ## Acceptor (src/io/acceptor.rs) -/

/-- A slot of the accept slab (`enum Accept`); the in-flight io_uring
handle carried by a pending slot is opaque and omitted. -/
inductive Accept where
  | pending (addr : Nat)
  | completed (addr : Nat) (fd : Int)
deriving DecidableEq

/-- `Accept::addr`. -/
def Accept.addr : Accept → Nat
  | Accept.pending a => a
  | Accept.completed a _ => a

/-- Whether a slot has completed. -/
def Accept.isCompleted : Accept → Bool
  | Accept.pending _ => false
  | Accept.completed _ _ => true

/-- The `slab::Slab<Accept>` collaborator, modelled as a fixed-length slot
table — `entries.length` is the capacity fixed by `Slab::with_capacity`;
a vacant entry is the first free key. -/
structure SlabA where
  entries : List (Option Accept)
deriving DecidableEq

namespace SlabA

/-- `Slab::capacity`. -/
def capacity (s : SlabA) : Nat := s.entries.length

/-- `Slab::len`: the number of occupied slots. -/
def len (s : SlabA) : Nat := s.entries.countP Option.isSome

/-- `Slab::get`. -/
def get (s : SlabA) (i : Nat) : Option Accept := s.entries.getD i none

/-- `VacantEntry::key`. -/
def vacantKey (s : SlabA) : Nat := s.entries.findIdx Option.isNone

/-- `VacantEntry::insert`. -/
def insert (s : SlabA) (a : Accept) : SlabA :=
  ⟨s.entries.set s.vacantKey (some a)⟩

/-- `Slab::remove`. -/
def remove (s : SlabA) (i : Nat) : SlabA := ⟨s.entries.set i none⟩

/-- In-place update of slot `i` (`*self = ...` in `Accept::complete`). -/
def setSlot (s : SlabA) (i : Nat) (a : Accept) : SlabA :=
  ⟨s.entries.set i (some a)⟩

/-- The number of completed slots. -/
def completedCount (s : SlabA) : Nat :=
  s.entries.countP (fun o => (o.map Accept.isCompleted).getD false)

end SlabA

/-- `acceptor::Inner`: the accept slab, the pinned address slab together
with the contents of the pinned address memory, and the FIFO of completed
slot indexes (front of the `VecDeque` at the head of the list). -/
structure AcceptorState where
  accept_slab : SlabA
  addr_raw_slab : RawSlab
  addrMem : Nat → Nat
  completed_indexes : List Nat

/-- The refill loop of `Acceptor::initiate_async_accepts`, with an
explicit iteration bound (the loop runs while `len < capacity` and each
iteration fills one slot, so `capacity - len` iterations suffice; the
bound reaching 0 with a non-full slab is modelled as `none`).  The
io_uring submission itself — stubbed in the source with `todo!` in favour
of the commented-out `io_uring.accept(...)` call — is modelled as
succeeding with an opaque handle; `none` also models the `unwrap` panic
when the address slab is exhausted. -/
def iaaLoop : Nat → AcceptorState → Option AcceptorState
  | 0, a =>
      if a.accept_slab.len < a.accept_slab.capacity then none else some a
  | fuel + 1, a =>
      if a.accept_slab.len < a.accept_slab.capacity then
        match a.addr_raw_slab.alloc with
        | (none, _) => none
        | (some addr, slab') =>
            iaaLoop fuel
              { a with
                accept_slab := a.accept_slab.insert (Accept.pending addr),
                addr_raw_slab := slab' }
      else some a

/-- `Acceptor::initiate_async_accepts`. -/
def initiate_async_accepts (a : AcceptorState) : Option AcceptorState :=
  iaaLoop (a.accept_slab.capacity - a.accept_slab.len) a

/-- `Acceptor::try_accept`.  Returns `none` where the source would panic
(the `unreachable` for a pending slot in the completed queue, or a failed
`unwrap` during the refill); otherwise the return code, the copied peer
address if requested, and the successor state. -/
def try_accept (a : AcceptorState) (c : CommonState) (wantAddr : Bool) :
    Option (Int × Option Nat × AcceptorState × CommonState) :=
  match a.completed_indexes with
  | [] =>
      match c.error with
      | some error => some (error, none, a, c)
      | none => some (-EAGAIN, none, a, c)
  | completed_index :: rest =>
      let a1 := { a with completed_indexes := rest }
      let c1 :=
        if rest.isEmpty then { c with pollee := c.pollee.remove Events.IN } else c
      match a1.accept_slab.get completed_index with
      | some (Accept.completed addr fd) =>
          let out := if wantAddr then some (a1.addrMem addr) else none
          let a2 := { a1 with addr_raw_slab := a1.addr_raw_slab.dealloc addr }
          let a3 := { a2 with accept_slab := a2.accept_slab.remove completed_index }
          match initiate_async_accepts a3 with
          | some a4 => some (fd, out, a4, c1)
          | none => none
      | _ => none

/-- The completion callback registered by `initiate_async_accepts` for
slot `accept_slab_index`.  `none` models the `unwrap` on a missing slot
and the panic on completing an already-completed slot. -/
def accept_complete (a : AcceptorState) (c : CommonState) (accept_slab_index : Nat)
    (retval : Int) : Option (AcceptorState × CommonState) :=
  match a.accept_slab.get accept_slab_index with
  | none => none
  | some pending_accept =>
      if retval < 0 then
        let c1 := c.set_error retval
        let c2 := { c1 with pollee := c1.pollee.add Events.ERR }
        let a1 := { a with
          addr_raw_slab := a.addr_raw_slab.dealloc pending_accept.addr }
        let a2 := { a1 with accept_slab := a1.accept_slab.remove accept_slab_index }
        some (a2, c2)
      else
        match pending_accept with
        | Accept.completed _ _ => none
        | Accept.pending addr =>
            let a1 := { a with accept_slab :=
              a.accept_slab.setSlot accept_slab_index (Accept.completed addr retval) }
            let a2 := { a1 with
              completed_indexes := a1.completed_indexes ++ [accept_slab_index] }
            let c1 := { c with pollee := c.pollee.add Events.IN }
            some (a2, c1)

/-- The C7 contract of `Acceptor::try_accept`: with no completed entry it
returns the sticky error or `-EAGAIN` without mutating anything; otherwise
it pops the front completed index (FIFO), copies the peer address on
request, frees the pinned address slot and the slab slot, refills pending
accepts back to the full backlog, and returns the slot's fd; completions
enqueue at the back of the queue and raise IN. -/
def tryAcceptContract (a : AcceptorState) (c : CommonState) (wantAddr : Bool) : Prop :=
  (∀ e : Int, a.completed_indexes = [] → c.error = some e →
      try_accept a c wantAddr = some (e, none, a, c))
  ∧ (a.completed_indexes = [] → c.error = none →
      try_accept a c wantAddr = some (-EAGAIN, none, a, c))
  ∧ (∀ (i : Nat) (rest : List Nat) (addr : Nat) (fd : Int),
      a.completed_indexes = i :: rest →
      a.accept_slab.get i = some (Accept.completed addr fd) →
      a.accept_slab.capacity
          ≤ a.accept_slab.len + a.addr_raw_slab.free_indexes.length →
      ∃ a', try_accept a c wantAddr
          = some (fd, (if wantAddr then some (a.addrMem addr) else none), a',
              (if rest.isEmpty then
                { c with pollee := c.pollee.remove Events.IN } else c))
        ∧ a'.completed_indexes = rest
        ∧ a'.accept_slab.len = a'.accept_slab.capacity
        ∧ a'.accept_slab.capacity = a.accept_slab.capacity
        ∧ a'.accept_slab.completedCount + 1 = a.accept_slab.completedCount
        ∧ a'.addrMem = a.addrMem)
  ∧ (∀ (i : Nat) (addr : Nat) (v : Int),
      a.accept_slab.get i = some (Accept.pending addr) → 0 ≤ v →
      ∃ a' c', accept_complete a c i v = some (a', c')
        ∧ a'.completed_indexes = a.completed_indexes ++ [i]
        ∧ c'.pollee.rIn = true)

/-! ## Theorems -/


/-! ## Arithmetic helpers -/

/-- Reduce `a % L` to a subtraction when `a < 2 * L`. -/
theorem mod_split (a L : Nat) (h : a < 2 * L) (h0 : 0 < L) :
    a % L = if a < L then a else a - L := by
  rcases Nat.lt_or_ge a L with h1 | h1
  · rw [if_pos h1, Nat.mod_eq_of_lt h1]
  · rw [if_neg (by omega)]
    conv_lhs => rw [show a = L + (a - L) from by omega]
    rw [Nat.add_mod_left, Nat.mod_eq_of_lt (by omega)]

/-- Adding distinct offsets below `L` to a common base yields distinct
residues modulo `L`. -/
theorem addmod_inj (b a a' L : Nat) (h0 : 0 < L) (ha : a < L) (ha' : a' < L)
    (h : (b + a) % L = (b + a') % L) : a = a' := by
  have hb : b % L < L := Nat.mod_lt _ h0
  have e1 : (b + a) % L = (b % L + a) % L := by
    rw [Nat.mod_add_mod]
  have e2 : (b + a') % L = (b % L + a') % L := by
    rw [Nat.mod_add_mod]
  rw [e1, e2, mod_split (b % L + a) L (by omega) h0,
    mod_split (b % L + a') L (by omega) h0] at h
  split_ifs at h <;> omega

namespace CircularBuf

theorem consumable_lt_len (cb : CircularBuf) (h : wf cb) : cb.consumable < cb.len := by
  obtain ⟨h0, h1, h2⟩ := h
  unfold consumable
  split_ifs <;> omega

theorem consumable_le_capacity (cb : CircularBuf) (h : wf cb) :
    cb.consumable ≤ cb.capacity := by
  obtain ⟨h0, h1, h2⟩ := h
  unfold consumable capacity
  split_ifs <;> omega

theorem producible_add_consumable (cb : CircularBuf) (h : wf cb) :
    cb.producible + cb.consumable = cb.capacity := by
  have := consumable_le_capacity cb h
  unfold producible
  omega

theorem readRange_length (d : Nat → Nat) (r : Nat × Nat) :
    (readRange d r).length = r.2 - r.1 := by
  simp [readRange]

theorem readRange_getD (d : Nat → Nat) (r : Nat × Nat) (j : Nat) (h : j < r.2 - r.1) :
    (readRange d r).getD j 0 = d (r.1 + j) := by
  unfold readRange
  rw [List.getD_eq_getElem _ _ (by simpa using h)]
  simp

theorem writeRange_out (d : Nat → Nat) (s : Nat) (src : List Nat) (i : Nat)
    (h : i < s ∨ s + src.length ≤ i) : writeRange d s src i = d i := by
  unfold writeRange
  rw [if_neg (by omega)]

theorem writeRange_mem (d : Nat → Nat) (s : Nat) (src : List Nat) (i : Nat)
    (h1 : s ≤ i) (h2 : i < s + src.length) :
    writeRange d s src i = src.getD (i - s) 0 := by
  unfold writeRange
  rw [if_pos ⟨h1, h2⟩]

theorem producerRanges_total (cb : CircularBuf) (h : wf cb) :
    (cb.producerRanges.1.2 - cb.producerRanges.1.1) +
      (cb.producerRanges.2.2 - cb.producerRanges.2.1) = cb.producible := by
  obtain ⟨h0, h1, h2⟩ := h
  unfold producerRanges producible capacity consumable
  split_ifs <;> dsimp only <;> omega

theorem producerRanges_pos0 (cb : CircularBuf) (h : wf cb) (j : Nat)
    (hj : j < cb.producerRanges.1.2 - cb.producerRanges.1.1) :
    cb.producerRanges.1.1 + j = (cb.tail + j) % cb.len := by
  obtain ⟨h0, h1, h2⟩ := h
  unfold producerRanges at hj ⊢
  split_ifs at hj ⊢ <;> dsimp only at hj ⊢ <;>
    first
      | omega
      | (rw [Nat.mod_eq_of_lt (by omega)])

theorem producerRanges_pos1 (cb : CircularBuf) (h : wf cb) (j : Nat)
    (hj0 : cb.producerRanges.1.2 - cb.producerRanges.1.1 ≤ j)
    (hj : j < cb.producible) :
    cb.producerRanges.2.1 + (j - (cb.producerRanges.1.2 - cb.producerRanges.1.1))
      = (cb.tail + j) % cb.len := by
  obtain ⟨h0, h1, h2⟩ := h
  unfold producible capacity consumable at hj
  unfold producerRanges at hj0 ⊢
  split_ifs at hj0 hj ⊢ <;> dsimp only at hj0 ⊢ <;>
    rw [mod_split (cb.tail + j) cb.len (by omega) h0] <;> split_ifs <;> omega

theorem consumerRanges_total (cb : CircularBuf) (h : wf cb) :
    (cb.consumerRanges.1.2 - cb.consumerRanges.1.1) +
      (cb.consumerRanges.2.2 - cb.consumerRanges.2.1) = cb.consumable := by
  obtain ⟨h0, h1, h2⟩ := h
  unfold consumerRanges consumable
  split_ifs <;> dsimp only <;> omega

theorem consumerRanges_pos0 (cb : CircularBuf) (h : wf cb) (j : Nat)
    (hj : j < cb.consumerRanges.1.2 - cb.consumerRanges.1.1) :
    cb.consumerRanges.1.1 + j = (cb.head + j) % cb.len := by
  obtain ⟨h0, h1, h2⟩ := h
  unfold consumerRanges at hj ⊢
  split_ifs at hj ⊢ <;> dsimp only at hj ⊢ <;> rw [Nat.mod_eq_of_lt (by omega)]

theorem consumerRanges_pos1 (cb : CircularBuf) (h : wf cb) (j : Nat)
    (hj0 : cb.consumerRanges.1.2 - cb.consumerRanges.1.1 ≤ j)
    (hj : j < cb.consumable) :
    cb.consumerRanges.2.1 + (j - (cb.consumerRanges.1.2 - cb.consumerRanges.1.1))
      = (cb.head + j) % cb.len := by
  obtain ⟨h0, h1, h2⟩ := h
  unfold consumable at hj
  unfold consumerRanges at hj0 ⊢
  split_ifs at hj0 hj ⊢ <;> dsimp only at hj0 ⊢ <;>
    rw [mod_split (cb.head + j) cb.len (by omega) h0] <;> split_ifs <;> omega

theorem head_add_consumable (cb : CircularBuf) (h : wf cb) :
    (cb.head + cb.consumable) % cb.len = cb.tail := by
  obtain ⟨h0, h1, h2⟩ := h
  unfold consumable
  split_ifs <;> rw [mod_split _ _ (by omega) h0] <;> split_ifs <;> omega

theorem consumable_set_tail (cb : CircularBuf) (h : wf cb) (n : Nat)
    (hn : n ≤ cb.producible) (cb' : CircularBuf) (hlen : cb'.len = cb.len)
    (hh : cb'.head = cb.head) (ht : cb'.tail = (cb.tail + n) % cb.len) :
    cb'.consumable = cb.consumable + n := by
  obtain ⟨h0, h1, h2⟩ := h
  have hpc := producible_add_consumable cb ⟨h0, h1, h2⟩
  unfold capacity at hpc
  unfold producible capacity at hn
  have hn2 : n ≤ cb.len - 1 := by omega
  unfold consumable at hn hpc ⊢
  rw [hlen, hh, ht, mod_split (cb.tail + n) cb.len (by omega) h0]
  split_ifs at hn hpc ⊢ <;> omega

theorem getD_take (l : List Nat) (n j : Nat) (hj : j < n) :
    (l.take n).getD j 0 = l.getD j 0 := by
  rcases Nat.lt_or_ge j l.length with h | h
  · rw [List.getD_eq_getElem _ _ (by simp [List.length_take]; omega),
      List.getD_eq_getElem _ _ h]
    exact List.getElem_take _
  · rw [List.getD_eq_default _ _ (by simp [List.length_take]; omega),
      List.getD_eq_default _ _ h]

theorem getD_drop (l : List Nat) (n j : Nat) :
    (l.drop n).getD j 0 = l.getD (n + j) 0 := by
  rcases Nat.lt_or_ge (n + j) l.length with h | h
  · rw [List.getD_eq_getElem _ _ (by simp [List.length_drop]; omega),
      List.getD_eq_getElem _ _ h]
    exact List.getElem_drop _
  · rw [List.getD_eq_default _ _ (by simp [List.length_drop]; omega),
      List.getD_eq_default _ _ h]

theorem readRange_getElem (d : Nat → Nat) (r : Nat × Nat) (j : Nat)
    (h : j < (readRange d r).length) : (readRange d r)[j] = d (r.1 + j) := by
  unfold readRange
  simp

/-- The combined effect of a producer-view closure writing `src0` into the
first slice and `src1` into the second: bytes land at offsets
`(T + j) % L` and everything outside those offsets is untouched. -/
theorem write2_spec (d : Nat → Nat) (L T p0 p1 s0 s1 : Nat) (src0 src1 : List Nat)
    (h0 : 0 < L) (hT : T < L) (hcap : p0 + p1 < L)
    (hl0 : src0.length ≤ p0) (hl1 : src1.length ≤ p1)
    (P2 : ∀ j, j < p0 → s0 + j = (T + j) % L)
    (P3 : ∀ j, p0 ≤ j → j < p0 + p1 → s1 + (j - p0) = (T + j) % L) :
    (∀ j, j < src0.length →
        writeRange (writeRange d s0 src0) s1 src1 ((T + j) % L) = src0.getD j 0)
    ∧ (∀ j, p0 ≤ j → j < p0 + src1.length →
        writeRange (writeRange d s0 src0) s1 src1 ((T + j) % L) = src1.getD (j - p0) 0)
    ∧ (∀ i, (∀ j, j < p0 + p1 → i ≠ (T + j) % L) →
        writeRange (writeRange d s0 src0) s1 src1 i = d i) := by
  refine ⟨fun j hj => ?_, fun j hj0 hj1 => ?_, fun i hmiss => ?_⟩
  · have hq : s0 + j = (T + j) % L := P2 j (by omega)
    have hmiss1 : (T + j) % L < s1 ∨ s1 + src1.length ≤ (T + j) % L := by
      by_contra hc
      push_neg at hc
      obtain ⟨hc1, hc2⟩ := hc
      have hm := P3 (p0 + ((T + j) % L - s1)) (by omega) (by omega)
      have heq : (T + j) % L = (T + (p0 + ((T + j) % L - s1))) % L := by omega
      have := addmod_inj T j (p0 + ((T + j) % L - s1)) L h0 (by omega) (by omega) heq
      omega
    rw [writeRange_out _ _ _ _ hmiss1, ← hq,
      writeRange_mem _ _ _ _ (by omega) (by omega)]
    congr 1
    omega
  · have hq : s1 + (j - p0) = (T + j) % L := P3 j hj0 (by omega)
    rw [← hq, writeRange_mem _ _ _ _ (by omega) (by omega)]
    congr 1
    omega
  · have hmiss1 : i < s1 ∨ s1 + src1.length ≤ i := by
      by_contra hc
      push_neg at hc
      refine absurd ?_ (hmiss (p0 + (i - s1)) (by omega))
      have := P3 (p0 + (i - s1)) (by omega) (by omega)
      omega
    have hmiss0 : i < s0 ∨ s0 + src0.length ≤ i := by
      by_contra hc
      push_neg at hc
      refine absurd ?_ (hmiss (i - s0) (by omega))
      have := P2 (i - s0) (by omega)
      omega
    rw [writeRange_out _ _ _ _ hmiss1, writeRange_out _ _ _ _ hmiss0]

/-- Writing back the contents that a view handed out leaves the memory
unchanged. -/
theorem writeRange_readRange (d d' : Nat → Nat) (r : Nat × Nat)
    (hd : ∀ i, d' i = d i) (i : Nat) :
    writeRange d' r.1 (readRange d r) i = d' i := by
  by_cases hin : r.1 ≤ i ∧ i < r.1 + (readRange d r).length
  · rw [writeRange_mem _ _ _ _ hin.1 hin.2,
      readRange_getD _ _ _ (by rw [readRange_length] at hin; omega), hd i]
    congr 1
    omega
  · push_neg at hin
    rw [writeRange_out]
    by_cases hlt : i < r.1
    · left; exact hlt
    · right; omega

theorem consumable_set_head (cb : CircularBuf) (h : wf cb) (n : Nat)
    (hn : n ≤ cb.consumable) (cb' : CircularBuf) (hlen : cb'.len = cb.len)
    (ht : cb'.tail = cb.tail) (hh : cb'.head = (cb.head + n) % cb.len) :
    cb'.consumable = cb.consumable - n := by
  obtain ⟨h0, h1, h2⟩ := h
  have hn2 : n ≤ cb.len := le_of_lt
    (lt_of_le_of_lt hn (consumable_lt_len cb ⟨h0, h1, h2⟩))
  unfold consumable at hn ⊢
  rw [hlen, ht, hh, mod_split (cb.head + n) cb.len (by omega) h0]
  split_ifs at hn ⊢ <;> omega

theorem wpv_tail (cb : CircularBuf) (f : List Nat → List Nat → Nat × List Nat × List Nat) :
    (cb.with_producer_view f).2.tail = (cb.tail + (cb.with_producer_view f).1) % cb.len := rfl

theorem wpv_head (cb : CircularBuf) (f : List Nat → List Nat → Nat × List Nat × List Nat) :
    (cb.with_producer_view f).2.head = cb.head := rfl

theorem wpv_len (cb : CircularBuf) (f : List Nat → List Nat → Nat × List Nat × List Nat) :
    (cb.with_producer_view f).2.len = cb.len := rfl

theorem wpv_ptr (cb : CircularBuf) (f : List Nat → List Nat → Nat × List Nat × List Nat) :
    (cb.with_producer_view f).2.ptr = cb.ptr := rfl

theorem wcv_head {α : Type} (cb : CircularBuf) (f : List Nat → List Nat → Nat × α) :
    (cb.with_consumer_view f).2.head = (cb.head + (cb.with_consumer_view f).1.1) % cb.len := rfl

theorem wcv_tail {α : Type} (cb : CircularBuf) (f : List Nat → List Nat → Nat × α) :
    (cb.with_consumer_view f).2.tail = cb.tail := rfl

theorem wcv_len {α : Type} (cb : CircularBuf) (f : List Nat → List Nat → Nat × α) :
    (cb.with_consumer_view f).2.len = cb.len := rfl

theorem wcv_ptr {α : Type} (cb : CircularBuf) (f : List Nat → List Nat → Nat × α) :
    (cb.with_consumer_view f).2.ptr = cb.ptr := rfl

theorem wcv_data {α : Type} (cb : CircularBuf) (f : List Nat → List Nat → Nat × α) :
    (cb.with_consumer_view f).2.data = cb.data := rfl

theorem produce_tail (cb : CircularBuf) (buf : List Nat) :
    (cb.produce buf).2.tail = (cb.tail + (cb.produce buf).1) % cb.len := rfl

theorem produce_head (cb : CircularBuf) (buf : List Nat) :
    (cb.produce buf).2.head = cb.head := rfl

theorem produce_len (cb : CircularBuf) (buf : List Nat) :
    (cb.produce buf).2.len = cb.len := rfl

theorem produce_ptr (cb : CircularBuf) (buf : List Nat) :
    (cb.produce buf).2.ptr = cb.ptr := rfl

theorem pwc_tail (cb : CircularBuf) (n : Nat) :
    (cb.produce_without_copy n).2.tail
      = (cb.tail + (cb.produce_without_copy n).1) % cb.len := rfl

theorem pwc_head (cb : CircularBuf) (n : Nat) :
    (cb.produce_without_copy n).2.head = cb.head := rfl

theorem pwc_len (cb : CircularBuf) (n : Nat) :
    (cb.produce_without_copy n).2.len = cb.len := rfl

theorem pwc_ptr (cb : CircularBuf) (n : Nat) :
    (cb.produce_without_copy n).2.ptr = cb.ptr := rfl

theorem consume_head (cb : CircularBuf) (k : Nat) :
    (cb.consume k).2.head = (cb.head + (cb.consume k).1.1) % cb.len := rfl

theorem consume_tail (cb : CircularBuf) (k : Nat) :
    (cb.consume k).2.tail = cb.tail := rfl

theorem consume_len (cb : CircularBuf) (k : Nat) :
    (cb.consume k).2.len = cb.len := rfl

theorem consume_ptr (cb : CircularBuf) (k : Nat) :
    (cb.consume k).2.ptr = cb.ptr := rfl

theorem consume_data (cb : CircularBuf) (k : Nat) :
    (cb.consume k).2.data = cb.data := rfl

theorem cwc_head (cb : CircularBuf) (n : Nat) :
    (cb.consume_without_copy n).2.head
      = (cb.head + (cb.consume_without_copy n).1) % cb.len := rfl

theorem cwc_tail (cb : CircularBuf) (n : Nat) :
    (cb.consume_without_copy n).2.tail = cb.tail := rfl

theorem cwc_len (cb : CircularBuf) (n : Nat) :
    (cb.consume_without_copy n).2.len = cb.len := rfl

theorem cwc_ptr (cb : CircularBuf) (n : Nat) :
    (cb.consume_without_copy n).2.ptr = cb.ptr := rfl

theorem cwc_data (cb : CircularBuf) (n : Nat) :
    (cb.consume_without_copy n).2.data = cb.data := rfl

theorem produce_count (cb : CircularBuf) (h : wf cb) (buf : List Nat) :
    (cb.produce buf).1 = min buf.length cb.producible := by
  have htot := producerRanges_total cb h
  unfold produce with_producer_view
  simp only [readRange_length, List.length_drop]
  split_ifs <;> dsimp only <;> omega

theorem pwc_count (cb : CircularBuf) (h : wf cb) (n : Nat) :
    (cb.produce_without_copy n).1 = min n cb.producible := by
  have htot := producerRanges_total cb h
  unfold produce_without_copy with_producer_view
  simp only [readRange_length]
  rw [htot]

theorem consume_count (cb : CircularBuf) (h : wf cb) (k : Nat) :
    (cb.consume k).1.1 = min k cb.consumable := by
  have htot := consumerRanges_total cb h
  unfold consume with_consumer_view
  simp only [readRange_length]
  split_ifs <;> dsimp only <;> omega

theorem cwc_count (cb : CircularBuf) (h : wf cb) (n : Nat) :
    (cb.consume_without_copy n).1 = min n cb.consumable := by
  have htot := consumerRanges_total cb h
  unfold consume_without_copy with_consumer_view
  simp only [readRange_length]
  rw [htot]

theorem pwc_data (cb : CircularBuf) (n i : Nat) :
    (cb.produce_without_copy n).2.data i = cb.data i := by
  unfold produce_without_copy with_producer_view
  simp only [List.take_length]
  rw [writeRange_readRange _ _ _
      (fun j => writeRange_readRange cb.data cb.data _ (fun _ => rfl) j) i,
    writeRange_readRange cb.data cb.data _ (fun _ => rfl) i]

theorem readRange_take (d : Nat → Nat) (r : Nat × Nat) :
    (readRange d r).take (r.2 - r.1) = readRange d r := by
  rw [← readRange_length d r, List.take_length]

/-- The bytes accepted by `produce` land, in order, at the offsets
`(tail + j) % len`; all other offsets keep their old contents. -/
theorem produce_data (cb : CircularBuf) (h : wf cb) (buf : List Nat) :
    (∀ j, j < (cb.produce buf).1 →
        (cb.produce buf).2.data ((cb.tail + j) % cb.len) = buf.getD j 0)
    ∧ (∀ i, (∀ j, j < cb.producible → i ≠ (cb.tail + j) % cb.len) →
        (cb.produce buf).2.data i = cb.data i) := by
  obtain ⟨h0, h1, h2⟩ := h
  have htot := producerRanges_total cb ⟨h0, h1, h2⟩
  have hcap : cb.producible < cb.len := by
    have h3 := producible_add_consumable cb ⟨h0, h1, h2⟩
    unfold capacity at h3
    omega
  have P2 := producerRanges_pos0 cb ⟨h0, h1, h2⟩
  have P3 : ∀ j, (cb.producerRanges.1.2 - cb.producerRanges.1.1) ≤ j →
      j < (cb.producerRanges.1.2 - cb.producerRanges.1.1) +
        (cb.producerRanges.2.2 - cb.producerRanges.2.1) →
      cb.producerRanges.2.1 + (j - (cb.producerRanges.1.2 - cb.producerRanges.1.1))
        = (cb.tail + j) % cb.len :=
    fun j hj0 hj1 => producerRanges_pos1 cb ⟨h0, h1, h2⟩ j hj0 (by omega)
  unfold produce with_producer_view
  simp only [readRange_length, readRange_take, List.length_drop, List.take_take,
    min_self]
  split_ifs with hb1 hb2 <;> dsimp only <;>
    simp only [readRange_take, List.take_take, inf_idem, min_self]
  · -- the whole input fits into the first slice
    obtain ⟨W1, _W2, W3⟩ := write2_spec cb.data cb.len cb.tail
      (cb.producerRanges.1.2 - cb.producerRanges.1.1)
      (cb.producerRanges.2.2 - cb.producerRanges.2.1)
      cb.producerRanges.1.1 cb.producerRanges.2.1
      (buf.take (cb.producerRanges.1.2 - cb.producerRanges.1.1))
      (readRange cb.data cb.producerRanges.2)
      h0 h2 (by omega) (by simp [List.length_take]) (by rw [readRange_length]) P2 P3
    refine ⟨fun j hj => ?_, fun i hmiss => ?_⟩
    · rw [W1 j (by simp [List.length_take]; omega), getD_take _ _ _ (by omega)]
    · exact W3 i (fun j hj => hmiss j (by omega))
  · -- the input spills into the second slice and fits there
    obtain ⟨W1, W2, W3⟩ := write2_spec cb.data cb.len cb.tail
      (cb.producerRanges.1.2 - cb.producerRanges.1.1)
      (cb.producerRanges.2.2 - cb.producerRanges.2.1)
      cb.producerRanges.1.1 cb.producerRanges.2.1
      (buf.take (cb.producerRanges.1.2 - cb.producerRanges.1.1))
      ((buf.drop (cb.producerRanges.1.2 - cb.producerRanges.1.1)).take
        (cb.producerRanges.2.2 - cb.producerRanges.2.1))
      h0 h2 (by omega) (by simp [List.length_take]) (by simp [List.length_take]) P2 P3
    refine ⟨fun j hj => ?_, fun i hmiss => ?_⟩
    · by_cases hj0 : j < cb.producerRanges.1.2 - cb.producerRanges.1.1
      · rw [W1 j (by simp [List.length_take]; omega), getD_take _ _ _ hj0]
      · push_neg at hj0
        rw [W2 j hj0 (by simp [List.length_take, List.length_drop]; omega),
          getD_take _ _ _ (by omega), getD_drop,
          show cb.producerRanges.1.2 - cb.producerRanges.1.1 +
            (j - (cb.producerRanges.1.2 - cb.producerRanges.1.1)) = j from by omega]
    · exact W3 i (fun j hj => hmiss j (by omega))
  · -- the input overflows both slices
    obtain ⟨W1, W2, W3⟩ := write2_spec cb.data cb.len cb.tail
      (cb.producerRanges.1.2 - cb.producerRanges.1.1)
      (cb.producerRanges.2.2 - cb.producerRanges.2.1)
      cb.producerRanges.1.1 cb.producerRanges.2.1
      (buf.take (cb.producerRanges.1.2 - cb.producerRanges.1.1))
      ((buf.drop (cb.producerRanges.1.2 - cb.producerRanges.1.1)).take
        (cb.producerRanges.2.2 - cb.producerRanges.2.1))
      h0 h2 (by omega) (by simp [List.length_take]) (by simp [List.length_take]) P2 P3
    refine ⟨fun j hj => ?_, fun i hmiss => ?_⟩
    · by_cases hj0 : j < cb.producerRanges.1.2 - cb.producerRanges.1.1
      · rw [W1 j (by simp [List.length_take]; omega), getD_take _ _ _ hj0]
      · push_neg at hj0
        rw [W2 j hj0 (by simp [List.length_take, List.length_drop]; omega),
          getD_take _ _ _ (by omega), getD_drop,
          show cb.producerRanges.1.2 - cb.producerRanges.1.1 +
            (j - (cb.producerRanges.1.2 - cb.producerRanges.1.1)) = j from by omega]
    · exact W3 i (fun j hj => hmiss j (by omega))

theorem wpv_wf (cb : CircularBuf) (f : List Nat → List Nat → Nat × List Nat × List Nat)
    (h : wf cb) : wf (cb.with_producer_view f).2 := by
  obtain ⟨h0, h1, h2⟩ := h
  refine ⟨?_, ?_, ?_⟩
  · rw [wpv_len]; exact h0
  · rw [wpv_head, wpv_len]; exact h1
  · rw [wpv_tail, wpv_len]; exact Nat.mod_lt _ h0

theorem wcv_wf {α : Type} (cb : CircularBuf) (f : List Nat → List Nat → Nat × α)
    (h : wf cb) : wf (cb.with_consumer_view f).2 := by
  obtain ⟨h0, h1, h2⟩ := h
  refine ⟨?_, ?_, ?_⟩
  · rw [wcv_len]; exact h0
  · rw [wcv_head, wcv_len]; exact Nat.mod_lt _ h0
  · rw [wcv_tail, wcv_len]; exact h2

theorem produce_wf (cb : CircularBuf) (h : wf cb) (buf : List Nat) :
    wf (cb.produce buf).2 := wpv_wf cb _ h

theorem pwc_wf (cb : CircularBuf) (h : wf cb) (n : Nat) :
    wf (cb.produce_without_copy n).2 := wpv_wf cb _ h

theorem consume_wf (cb : CircularBuf) (h : wf cb) (k : Nat) :
    wf (cb.consume k).2 := wcv_wf cb _ h

theorem cwc_wf (cb : CircularBuf) (h : wf cb) (n : Nat) :
    wf (cb.consume_without_copy n).2 := by
  have := wcv_wf cb (fun part0 part1 =>
    (n.min (part0.length + part1.length), ())) h
  exact this

theorem produce_le (cb : CircularBuf) (h : wf cb) (buf : List Nat) :
    (cb.produce buf).1 ≤ cb.producible := by
  rw [produce_count cb h buf]
  omega

theorem produce_consumable (cb : CircularBuf) (h : wf cb) (buf : List Nat) :
    (cb.produce buf).2.consumable = cb.consumable + (cb.produce buf).1 :=
  consumable_set_tail cb h _ (produce_le cb h buf) _ (produce_len cb buf)
    (produce_head cb buf) (produce_tail cb buf)

theorem pwc_consumable (cb : CircularBuf) (h : wf cb) (n : Nat) :
    (cb.produce_without_copy n).2.consumable
      = cb.consumable + (cb.produce_without_copy n).1 :=
  consumable_set_tail cb h _ (by rw [pwc_count cb h n]; omega) _ (pwc_len cb n)
    (pwc_head cb n) (pwc_tail cb n)

theorem consume_consumable (cb : CircularBuf) (h : wf cb) (k : Nat) :
    (cb.consume k).2.consumable = cb.consumable - (cb.consume k).1.1 :=
  consumable_set_head cb h _ (by rw [consume_count cb h k]; omega) _ (consume_len cb k)
    (consume_tail cb k) (consume_head cb k)

theorem cwc_consumable (cb : CircularBuf) (h : wf cb) (n : Nat) :
    (cb.consume_without_copy n).2.consumable
      = cb.consumable - (cb.consume_without_copy n).1 :=
  consumable_set_head cb h _ (by rw [cwc_count cb h n]; omega) _ (cwc_len cb n)
    (cwc_tail cb n) (cwc_head cb n)

/-- Producing appends the accepted prefix of the input to the abstract
FIFO contents. -/
theorem produce_queueOf (cb : CircularBuf) (h : wf cb) (buf : List Nat) :
    queueOf (cb.produce buf).2 = queueOf cb ++ buf.take (cb.produce buf).1 := by
  obtain ⟨hd1, hd2⟩ := produce_data cb h buf
  have hcnt := produce_count cb h buf
  have hcons := produce_consumable cb h buf
  have hhc := head_add_consumable cb h
  have hcap := producible_add_consumable cb h
  obtain ⟨h0, h1, h2⟩ := h
  have hn_le : (cb.produce buf).1 ≤ buf.length := by omega
  have hCP : cb.consumable + cb.producible < cb.len := by
    unfold capacity at hcap
    omega
  apply List.ext_getElem
  · simp only [queueOf, List.length_map, List.length_range, List.length_append,
      List.length_take, hcons]
    omega
  · intro i hi1 hi2
    simp only [queueOf, List.length_map, List.length_range, hcons] at hi1
    simp only [queueOf, List.getElem_map, List.getElem_range, produce_head, produce_len,
      hcons]
    by_cases hiC : i < cb.consumable
    · rw [hd2 ((cb.head + i) % cb.len) ?miss]
      case miss =>
        intro j hj heq
        have e1 : (cb.tail + j) % cb.len = (cb.head + (cb.consumable + j)) % cb.len := by
          conv_lhs => rw [← hhc]
          rw [Nat.mod_add_mod, Nat.add_assoc]
        rw [e1] at heq
        have := addmod_inj cb.head i (cb.consumable + j) cb.len h0 (by omega) (by omega) heq
        omega
      rw [List.getElem_append_left
        (by simp only [queueOf, List.length_map, List.length_range]; omega)]
      simp only [queueOf, List.getElem_map, List.getElem_range]
    · push_neg at hiC
      rw [List.getElem_append_right
        (by simp only [queueOf, List.length_map, List.length_range]; omega)]
      have e2 : (cb.head + i) % cb.len = (cb.tail + (i - cb.consumable)) % cb.len := by
        conv_rhs => rw [← hhc, Nat.mod_add_mod]
        congr 1
        omega
      rw [e2, hd1 (i - cb.consumable) (by omega)]
      simp only [queueOf, List.length_map, List.length_range]
      rw [List.getD_eq_getElem _ _ (by omega)]
      exact (List.getElem_take _).symm

/-- The two slices handed to a consumer closure are exactly the abstract
FIFO contents, split at the wrap point. -/
theorem consumer_parts (cb : CircularBuf) (h : wf cb) :
    readRange cb.data cb.consumerRanges.1 ++ readRange cb.data cb.consumerRanges.2
      = queueOf cb := by
  have htot := consumerRanges_total cb h
  have P2 := consumerRanges_pos0 cb h
  have P3 := consumerRanges_pos1 cb h
  apply List.ext_getElem
  · simp only [List.length_append, readRange_length, queueOf, List.length_map,
      List.length_range]
    omega
  · intro i hi1 hi2
    simp only [List.length_append, readRange_length] at hi1
    have hiC : i < cb.consumable := by
      simp only [queueOf, List.length_map, List.length_range] at hi2
      exact hi2
    simp only [queueOf, List.getElem_map, List.getElem_range]
    by_cases hc : i < cb.consumerRanges.1.2 - cb.consumerRanges.1.1
    · rw [List.getElem_append_left (by rw [readRange_length]; exact hc),
        readRange_getElem _ _ _ (by rw [readRange_length]; exact hc), P2 i hc]
    · push_neg at hc
      rw [List.getElem_append_right (by rw [readRange_length]; exact hc),
        readRange_getElem _ _ _ (by simp only [readRange_length]; omega),
        readRange_length, P3 i hc hiC]

/-- `consume` returns exactly the first `min k consumable` bytes of the
abstract FIFO contents. -/
theorem consume_out (cb : CircularBuf) (h : wf cb) (k : Nat) :
    (cb.consume k).1.2 = (queueOf cb).take k := by
  have htot := consumerRanges_total cb h
  rw [← consumer_parts cb h]
  unfold consume with_consumer_view
  simp only [readRange_length]
  split_ifs with hc1 hc2 <;> dsimp only
  · rw [List.take_append_eq_append_take, readRange_length,
      show k - (cb.consumerRanges.1.2 - cb.consumerRanges.1.1) = 0 from by omega,
      List.take_zero, List.append_nil]
  · rw [List.take_append_eq_append_take, readRange_length,
      List.take_of_length_le
        (show (readRange cb.data cb.consumerRanges.1).length ≤ k from by
          rw [readRange_length]; omega)]
  · rw [List.take_of_length_le
      (show (readRange cb.data cb.consumerRanges.1
          ++ readRange cb.data cb.consumerRanges.2).length ≤ k from by
        simp only [List.length_append, readRange_length]; omega)]

/-- Consuming drops the returned bytes from the abstract FIFO contents. -/
theorem consume_queueOf (cb : CircularBuf) (h : wf cb) (k : Nat) :
    queueOf (cb.consume k).2 = (queueOf cb).drop (cb.consume k).1.1 := by
  have hcnt := consume_count cb h k
  have hcons := consume_consumable cb h k
  obtain ⟨h0, h1, h2⟩ := h
  apply List.ext_getElem
  · simp only [queueOf, List.length_map, List.length_range, List.length_drop, hcons]
  · intro i hi1 hi2
    simp only [queueOf, List.length_map, List.length_range, hcons] at hi1
    simp only [queueOf, List.getElem_map, List.getElem_range, consume_head, consume_len,
      consume_data, List.getElem_drop]
    congr 1
    rw [Nat.mod_add_mod, Nat.add_assoc]

end CircularBuf

/-- Refinement invariant for a run: starting contents plus all produced
bytes equal all consumed bytes plus final contents. -/
theorem runOps_correct (ops : List CopyOp) (cb : CircularBuf) (h : wf cb)
    (hf : fitsRun cb ops = true) :
    queueOf cb ++ (runOps cb ops).1 = (runOps cb ops).2.1 ++ queueOf (runOps cb ops).2.2
    ∧ wf (runOps cb ops).2.2 := by
  induction ops generalizing cb with
  | nil => exact ⟨by simp [runOps], h⟩
  | cons op ops ih =>
    cases op with
    | prod buf =>
      rw [fitsRun] at hf
      split_ifs at hf with hfit
      obtain ⟨ih1, ih2⟩ := ih (cb.produce buf).2 (produce_wf cb h buf) hf
      rw [runOps]
      dsimp only
      refine ⟨?_, ih2⟩
      rw [produce_queueOf cb h buf] at ih1
      have hn : (cb.produce buf).1 = buf.length := by
        rw [produce_count cb h buf]
        omega
      rw [hn, List.take_length] at ih1
      rw [← List.append_assoc]
      exact ih1
    | cons k =>
      rw [fitsRun] at hf
      obtain ⟨ih1, ih2⟩ := ih (cb.consume k).2 (consume_wf cb h k) hf
      rw [runOps]
      dsimp only
      refine ⟨?_, ih2⟩
      have hsplit : (cb.consume k).1.2 ++ queueOf (cb.consume k).2 = queueOf cb := by
        rw [consume_out cb h k, consume_queueOf cb h k]
        rw [show (queueOf cb).take k = (queueOf cb).take (cb.consume k).1.1 from by
          rw [List.take_eq_take, consume_count cb h k]
          simp only [queueOf, List.length_map, List.length_range]
          omega]
        exact List.take_append_drop _ _
      rw [← hsplit, List.append_assoc, ih1, ← List.append_assoc]

/-- C1: for any sequence of produce/consume calls in which every `produce`
fits within the remaining capacity, the concatenation of the bytes returned
by `consume` is, in order, a prefix of the concatenation of the bytes given
to `produce` — wraparound included. -/
theorem circularBuf_round_trip (ptr len : Nat) (data : Nat → Nat) (ops : List CopyOp)
    (hlen : 0 < len)
    (hf : fitsRun (from_raw_parts ptr len data) ops = true) :
    (runOps (from_raw_parts ptr len data) ops).2.1
      = (runOps (from_raw_parts ptr len data) ops).1.take
          (runOps (from_raw_parts ptr len data) ops).2.1.length := by
  obtain ⟨h1, _h2⟩ := runOps_correct ops (from_raw_parts ptr len data) ⟨hlen, hlen, hlen⟩ hf
  have hq : queueOf (from_raw_parts ptr len data) = [] := rfl
  rw [hq, List.nil_append] at h1
  rw [h1, List.take_left]

/-- Witness for C1: a concrete run on a 4-byte buffer (capacity 3) whose
cumulative traffic (5 bytes) exceeds `len`, so the cursors wrap. -/
theorem circularBuf_round_trip_witness :
    (fitsRun (from_raw_parts 0 4 (fun _ => 0))
        [CopyOp.prod [1, 2, 3], CopyOp.cons 2, CopyOp.prod [4, 5], CopyOp.cons 3]
      = true)
    ∧ (runOps (from_raw_parts 0 4 (fun _ => 0))
          [CopyOp.prod [1, 2, 3], CopyOp.cons 2, CopyOp.prod [4, 5], CopyOp.cons 3]).2.1
      = (runOps (from_raw_parts 0 4 (fun _ => 0))
          [CopyOp.prod [1, 2, 3], CopyOp.cons 2, CopyOp.prod [4, 5], CopyOp.cons 3]).1.take
          (runOps (from_raw_parts 0 4 (fun _ => 0))
            [CopyOp.prod [1, 2, 3], CopyOp.cons 2, CopyOp.prod [4, 5], CopyOp.cons 3]).2.1.length :=
  ⟨by decide, circularBuf_round_trip 0 4 (fun _ => 0) _ (by decide) (by decide)⟩

theorem applyOp_wf (cb : CircularBuf) (h : wf cb) (op : BufOp) : wf (applyOp cb op) := by
  cases op with
  | prod buf => exact produce_wf cb h buf
  | cons k => exact consume_wf cb h k
  | prodNC n => exact pwc_wf cb h n
  | consNC n => exact cwc_wf cb h n

theorem runState_wf (ops : List BufOp) (cb : CircularBuf) (h : wf cb) :
    wf (runState cb ops) := by
  induction ops generalizing cb with
  | nil => exact h
  | cons op ops ih => exact ih (applyOp cb op) (applyOp_wf cb h op)

/-- C2: in every state reachable from a fresh buffer by produce, consume,
produce_without_copy and consume_without_copy,
`producible + consumable = capacity`, `capacity = len - 1`,
`is_full` iff `producible = 0` and `is_empty` iff `consumable = 0`. -/
theorem circularBuf_capacity_invariant (ptr len : Nat) (data : Nat → Nat)
    (ops : List BufOp) (hlen : 0 < len) :
    (runState (from_raw_parts ptr len data) ops).producible
        + (runState (from_raw_parts ptr len data) ops).consumable
      = (runState (from_raw_parts ptr len data) ops).capacity
    ∧ (runState (from_raw_parts ptr len data) ops).capacity
        = (runState (from_raw_parts ptr len data) ops).len - 1
    ∧ ((runState (from_raw_parts ptr len data) ops).is_full = true
        ↔ (runState (from_raw_parts ptr len data) ops).producible = 0)
    ∧ ((runState (from_raw_parts ptr len data) ops).is_empty = true
        ↔ (runState (from_raw_parts ptr len data) ops).consumable = 0) := by
  have hwf := runState_wf ops (from_raw_parts ptr len data) ⟨hlen, hlen, hlen⟩
  refine ⟨producible_add_consumable _ hwf, rfl, ?_, ?_⟩
  · unfold is_full
    simp
  · unfold is_empty
    simp

/-- Witness for C2: a concrete mixed run including the without-copy calls. -/
theorem circularBuf_capacity_invariant_witness :
    (0 < 4)
    ∧ ((runState (from_raw_parts 7 4 (fun _ => 0))
          [BufOp.prod [9, 9], BufOp.consNC 1, BufOp.prodNC 2, BufOp.cons 5]).producible
        + (runState (from_raw_parts 7 4 (fun _ => 0))
          [BufOp.prod [9, 9], BufOp.consNC 1, BufOp.prodNC 2, BufOp.cons 5]).consumable
      = (runState (from_raw_parts 7 4 (fun _ => 0))
          [BufOp.prod [9, 9], BufOp.consNC 1, BufOp.prodNC 2, BufOp.cons 5]).capacity
    ∧ (runState (from_raw_parts 7 4 (fun _ => 0))
          [BufOp.prod [9, 9], BufOp.consNC 1, BufOp.prodNC 2, BufOp.cons 5]).capacity
        = (runState (from_raw_parts 7 4 (fun _ => 0))
          [BufOp.prod [9, 9], BufOp.consNC 1, BufOp.prodNC 2, BufOp.cons 5]).len - 1
    ∧ ((runState (from_raw_parts 7 4 (fun _ => 0))
          [BufOp.prod [9, 9], BufOp.consNC 1, BufOp.prodNC 2, BufOp.cons 5]).is_full = true
        ↔ (runState (from_raw_parts 7 4 (fun _ => 0))
          [BufOp.prod [9, 9], BufOp.consNC 1, BufOp.prodNC 2, BufOp.cons 5]).producible = 0)
    ∧ ((runState (from_raw_parts 7 4 (fun _ => 0))
          [BufOp.prod [9, 9], BufOp.consNC 1, BufOp.prodNC 2, BufOp.cons 5]).is_empty = true
        ↔ (runState (from_raw_parts 7 4 (fun _ => 0))
          [BufOp.prod [9, 9], BufOp.consNC 1, BufOp.prodNC 2, BufOp.cons 5]).consumable = 0)) :=
  ⟨by decide, circularBuf_capacity_invariant 7 4 (fun _ => 0) _ (by decide)⟩

/-- C10: every CircularBuf operation leaves `ptr` and `len` unchanged and
advances exactly one cursor by the reported byte count modulo `len`; the
cursor bounds are preserved, so `capacity` is constant. -/
theorem circularBuf_cursor_discipline (cb : CircularBuf) (h : wf cb) :
    cursorDiscipline cb := by
  refine ⟨fun buf => ⟨produce_ptr cb buf, produce_len cb buf, produce_head cb buf,
      produce_tail cb buf, ?_, produce_wf cb h buf⟩,
    fun k => ⟨consume_ptr cb k, consume_len cb k, consume_tail cb k, consume_head cb k,
      ?_, consume_wf cb h k⟩,
    fun n => ⟨pwc_ptr cb n, pwc_len cb n, pwc_head cb n, pwc_tail cb n, ?_,
      pwc_wf cb h n⟩,
    fun n => ⟨cwc_ptr cb n, cwc_len cb n, cwc_tail cb n, cwc_head cb n, ?_,
      cwc_wf cb h n⟩,
    fun f => ⟨wpv_ptr cb f, wpv_len cb f, wpv_head cb f, wpv_tail cb f, ?_,
      fun _ => wpv_wf cb f h⟩,
    fun α f => ⟨wcv_ptr cb f, wcv_len cb f, wcv_tail cb f, wcv_head cb f, ?_,
      fun _ => wcv_wf cb f h⟩⟩ <;>
  · unfold capacity
    first
      | rw [produce_len]
      | rw [consume_len]
      | rw [pwc_len]
      | rw [cwc_len]
      | rw [wpv_len]
      | rw [wcv_len]

/-- Witness for C10 at a concrete 3-byte buffer. -/
theorem circularBuf_cursor_discipline_witness :
    wf (from_raw_parts 0 3 (fun _ => 0))
    ∧ cursorDiscipline (from_raw_parts 0 3 (fun _ => 0)) :=
  ⟨by decide, circularBuf_cursor_discipline _ (by decide)⟩

/-- A consumer view whose closure reports zero bytes consumed leaves the
buffer unchanged. -/
theorem wcv_zero {α : Type} (cb : CircularBuf) (h : wf cb)
    (f : List Nat → List Nat → Nat × α)
    (hcount : (cb.with_consumer_view f).1.1 = 0) :
    (cb.with_consumer_view f).2 = cb := by
  obtain ⟨h0, h1, h2⟩ := h
  have he : (cb.with_consumer_view f).2
      = { cb with head := (cb.head + (cb.with_consumer_view f).1.1) % cb.len } := rfl
  rw [he, hcount, Nat.add_zero, Nat.mod_eq_of_lt h1]

theorem flush_buf_state (s : SenderSys) (h : wf s.inner.buf) :
    flush_buf s = { s with inner := { s.inner with pending_io := true } } := by
  unfold flush_buf
  dsimp only
  rw [wcv_zero s.inner.buf h (fun part0 part1 => (0, (part0, part1))) rfl]

theorem flush_buf_inner_buf (t : SenderSys) (ht : wf t.inner.buf) :
    (flush_buf t).inner.buf = t.inner.buf := by
  rw [flush_buf_state t ht]

theorem flush_buf_pending (t : SenderSys) (ht : wf t.inner.buf) :
    (flush_buf t).inner.pending_io = true := by
  rw [flush_buf_state t ht]

theorem flush_buf_common (t : SenderSys) (ht : wf t.inner.buf) :
    (flush_buf t).common = t.common := by
  rw [flush_buf_state t ht]

theorem flush_buf_is_shutdown (t : SenderSys) (ht : wf t.inner.buf) :
    (flush_buf t).inner.is_shutdown = t.inner.is_shutdown := by
  rw [flush_buf_state t ht]

theorem flush_buf_shutWr (t : SenderSys) (ht : wf t.inner.buf) :
    (flush_buf t).shutWr = t.shutWr := by
  rw [flush_buf_state t ht]

/-- C3: `Sender::try_write` satisfies its contract. -/
theorem sender_try_write_contract (s : SenderSys) (buf : List Nat)
    (h : wf s.inner.buf) : tryWriteContract s buf := by
  refine ⟨fun hsd => ?_, fun e hsd herr => ?_, fun hsd herr hlen => ?_,
    fun hsd herr hlen => ?_⟩
  · simp [try_write, hsd]
  · simp [try_write, hsd, herr]
  · simp [try_write, hsd, herr, hlen]
  · have hcnt := produce_count s.inner.buf h buf
    have hq := produce_queueOf s.inner.buf h buf
    have hwf2 := produce_wf s.inner.buf h buf
    rw [hcnt] at hq
    unfold try_write
    simp only [hsd, Bool.false_eq_true, if_false, herr, hlen, if_neg hlen]
    refine ⟨?_, ?_, ?_, ?_⟩
    · split_ifs with h1 h2 h3 <;>
        simp_all [flush_buf_inner_buf, flush_buf_state]
    · split_ifs with h1 h2 h3 <;>
        simp_all [flush_buf_inner_buf, flush_buf_state, Events.remove, Events.OUT]
    · split_ifs with h1 h2 h3 <;>
        simp_all [EPIPE, EAGAIN] <;> omega
    · split_ifs with h1 h2 h3 <;> intro hpos <;>
        simp_all [flush_buf_state] <;> omega

/-- Witness for C3 at a concrete sender. -/
theorem sender_try_write_contract_witness :
    wf (SenderSys.mk
        (SenderInner.mk (from_raw_parts 0 4 (fun _ => 0)) false false)
        (CommonState.mk 5 Events.empty none) false).inner.buf
    ∧ tryWriteContract
        (SenderSys.mk
          (SenderInner.mk (from_raw_parts 0 4 (fun _ => 0)) false false)
          (CommonState.mk 5 Events.empty none) false) [1, 2] :=
  ⟨by decide, sender_try_write_contract _ [1, 2] (by decide)⟩

theorem sch_shutWr (s : SenderSys) (v : Int) :
    (sender_complete_handle s v).shutWr = s.shutWr := by
  unfold sender_complete_handle
  dsimp only
  split_ifs <;> rfl

theorem sch_is_shutdown (s : SenderSys) (v : Int) :
    (sender_complete_handle s v).inner.is_shutdown = s.inner.is_shutdown := by
  unfold sender_complete_handle
  dsimp only
  split_ifs <;> rfl

theorem sch_wf (s : SenderSys) (v : Int) (h : wf s.inner.buf) :
    wf (sender_complete_handle s v).inner.buf := by
  unfold sender_complete_handle
  dsimp only
  split_ifs <;> exact cwc_wf s.inner.buf h _

theorem scf_shutWr (t : SenderSys) (ht : wf t.inner.buf) :
    (sender_complete_finish t).shutWr = true ↔
      (t.shutWr = true ∨ (t.inner.buf.is_empty = true ∧ t.inner.is_shutdown = true)) := by
  unfold sender_complete_finish
  split_ifs with h1 h2
  · rw [flush_buf_shutWr t ht]
    simp [h1]
  · simp only [Bool.not_eq_false] at h1
    simp [h1, h2]
  · simp only [Bool.not_eq_false] at h1
    simp only [Bool.not_eq_true] at h2
    simp [h1, h2]

theorem scf_buf_is_empty (t : SenderSys) (ht : wf t.inner.buf) :
    (sender_complete_finish t).inner.buf.is_empty = t.inner.buf.is_empty := by
  unfold sender_complete_finish
  split_ifs with h1 h2
  · rw [flush_buf_inner_buf t ht]
  · rfl
  · rfl

theorem scf_is_shutdown (t : SenderSys) (ht : wf t.inner.buf) :
    (sender_complete_finish t).inner.is_shutdown = t.inner.is_shutdown := by
  unfold sender_complete_finish
  split_ifs with h1 h2
  · rw [flush_buf_is_shutdown t ht]
  · rfl
  · rfl

/-- C6: the sender's OS-level write-half close is deferred until the send
buffer has drained. -/
theorem sender_deferred_close (s : SenderSys) (retval : Int)
    (h : wf s.inner.buf) : deferredCloseContract s retval := by
  have hh := sch_wf s retval h
  refine ⟨?_, ?_, ?_, ?_⟩
  · intro hc
    unfold sender_shutdown
    dsimp only
    rw [if_neg (by rcases hc with hc | hc <;> simp [hc])]
  · unfold sender_shutdown
    dsimp only
    split_ifs with hc
    · simp only [Bool.and_eq_true, Bool.not_eq_true'] at hc
      simp [hc]
    · simp only [Bool.and_eq_true, Bool.not_eq_true'] at hc
      constructor
      · intro hw
        exact Or.inl hw
      · rintro (hw | ⟨hp, he⟩)
        · exact hw
        · exact absurd ⟨hp, he⟩ hc
  · intro hw0 hset
    unfold sender_complete at hset ⊢
    rw [scf_shutWr _ hh] at hset
    rcases hset with hset | ⟨he, hsd⟩
    · rw [sch_shutWr, hw0] at hset
      cases hset
    · exact ⟨by rw [scf_is_shutdown _ hh]; exact hsd,
        by rw [scf_buf_is_empty _ hh]; exact he⟩
  · intro hne
    unfold sender_complete at hne ⊢
    rw [scf_buf_is_empty _ hh] at hne
    rw [Bool.eq_iff_iff, scf_shutWr _ hh, hne, sch_shutWr]
    simp

/-- Witness for C6 at a concrete sender holding one buffered byte. -/
theorem sender_deferred_close_witness :
    wf (SenderSys.mk
        (SenderInner.mk
          (CircularBuf.mk 0 4 0 1 (fun _ => 7)) true true)
        (CommonState.mk 5 Events.empty none) false).inner.buf
    ∧ deferredCloseContract
        (SenderSys.mk
          (SenderInner.mk
            (CircularBuf.mk 0 4 0 1 (fun _ => 7)) true true)
          (CommonState.mk 5 Events.empty none) false) 1 :=
  ⟨by decide, sender_deferred_close _ 1 (by decide)⟩

/-- A producer view whose closure returns its slices unchanged leaves the
stored bytes unchanged. -/
theorem wpv_parts_data (cb : CircularBuf) (g : List Nat → List Nat → Nat) (i : Nat) :
    (cb.with_producer_view (fun part0 part1 => (g part0 part1, part0, part1))).2.data i
      = cb.data i := by
  unfold with_producer_view
  simp only [List.take_length]
  rw [writeRange_readRange _ _ _
      (fun j => writeRange_readRange cb.data cb.data _ (fun _ => rfl) j) i,
    writeRange_readRange cb.data cb.data _ (fun _ => rfl) i]

theorem queueOf_congr (cb' cb : CircularBuf) (hlen : cb'.len = cb.len)
    (hh : cb'.head = cb.head) (hc : cb'.consumable = cb.consumable)
    (hd : ∀ i, cb'.data i = cb.data i) : queueOf cb' = queueOf cb := by
  unfold queueOf
  rw [hc, hlen, hh]
  simp only [hd]

theorem fill_buf_facts (r : ReceiverSys) (h : wf r.inner.buf) :
    queueOf (fill_buf r).inner.buf = queueOf r.inner.buf
    ∧ (fill_buf r).inner.buf.consumable = r.inner.buf.consumable
    ∧ (fill_buf r).inner.buf.is_empty = r.inner.buf.is_empty
    ∧ (fill_buf r).inner.pending_io = true
    ∧ (fill_buf r).inner.end_of_file = r.inner.end_of_file
    ∧ (fill_buf r).common = r.common
    ∧ wf (fill_buf r).inner.buf := by
  have hbuf : (fill_buf r).inner.buf
      = (r.inner.buf.with_producer_view (fun part0 part1 => (0, part0, part1))).2 := rfl
  have hcnt : (r.inner.buf.with_producer_view
      (fun part0 part1 => (0, part0, part1))).1 = 0 := rfl
  have hcons : (fill_buf r).inner.buf.consumable = r.inner.buf.consumable := by
    rw [hbuf]
    have := consumable_set_tail r.inner.buf h 0 (Nat.zero_le _) _
      (wpv_len _ _) (wpv_head _ _) (by rw [wpv_tail, hcnt])
    simpa using this
  refine ⟨?_, hcons, ?_, rfl, rfl, rfl, ?_⟩
  · rw [hbuf]
    refine queueOf_congr _ _ (wpv_len _ _) (wpv_head _ _) ?_ ?_
    · rw [← hbuf]
      exact hcons
    · exact fun i => wpv_parts_data r.inner.buf (fun _ _ => 0) i
  · unfold is_empty
    rw [hcons]
  · rw [hbuf]
    exact wpv_wf _ _ h

/-- C4: `Receiver::try_read` satisfies its contract. -/
theorem receiver_try_read_contract (r : ReceiverSys) (k : Nat)
    (h : wf r.inner.buf) : tryReadContract r k := by
  refine ⟨fun hk => by simp [try_read, hk], fun hk => ?_⟩
  have hcnt := consume_count r.inner.buf h k
  have hout := consume_out r.inner.buf h k
  have hq := consume_queueOf r.inner.buf h k
  have hwf2 := consume_wf r.inner.buf h k
  rw [hcnt] at hq
  unfold try_read
  rw [if_neg hk]
  dsimp only
  refine ⟨?_, ?_, ?_, ?_, ?_⟩
  · split_ifs <;>
      solve
        | exact hout
        | (rcases herr : r.common.error with _ | e <;> exact hout)
  · split_ifs <;>
      solve
        | exact hq
        | (rw [(fill_buf_facts _ hwf2).1]; exact hq)
        | (rcases herr : r.common.error with _ | e <;> exact hq)
  · split_ifs with h1 h2 h3 h4 <;>
      (try rcases herr : r.common.error with _ | e) <;> intro hfe <;>
      solve
        | simp [Events.remove, Events.IN]
        | (rw [(fill_buf_facts _ hwf2).2.2.2.2.2.1]
           simp [Events.remove, Events.IN])
        | (rw [(fill_buf_facts _ hwf2).2.2.1] at hfe
           simp_all)
        | simp_all
  · split_ifs <;> intro hpos <;>
      solve
        | (rw [hcnt])
        | (exfalso; omega)
        | (rcases herr : r.common.error with _ | e <;> exfalso <;> omega)
  · intro hmin
    have hn : (r.inner.buf.consume k).1.1 = 0 := by omega
    refine ⟨fun heT => ?_, fun e heF herr => ?_, fun heF herr => ?_⟩
    · split_ifs <;>
        solve
          | simp [hn]
          | (exfalso; simp_all)
          | (exfalso; omega)
          | (rcases herr : r.common.error with _ | e <;> simp [hn])
    · split_ifs <;>
        solve
          | (exfalso; simp_all)
          | (exfalso; omega)
          | (simp [herr])
    · split_ifs <;>
        solve
          | (exfalso; simp_all)
          | (exfalso; omega)
          | (simp [herr, EAGAIN])

/-- Witness for C4 at a concrete receiver holding two buffered bytes. -/
theorem receiver_try_read_contract_witness :
    wf (ReceiverSys.mk
        (ReceiverInner.mk (CircularBuf.mk 0 4 0 2 (fun i => i + 1)) true false)
        (CommonState.mk 6 Events.IN none)).inner.buf
    ∧ tryReadContract
        (ReceiverSys.mk
          (ReceiverInner.mk (CircularBuf.mk 0 4 0 2 (fun i => i + 1)) true false)
          (CommonState.mk 6 Events.IN none)) 1 :=
  ⟨by decide, receiver_try_read_contract _ 1 (by decide)⟩

/-- A `try_read` from a drained buffer after end-of-file returns 0 and
preserves the end-of-file, emptiness and well-formedness facts. -/
theorem try_read_at_eof (r : ReceiverSys) (h : wf r.inner.buf)
    (he : r.inner.end_of_file = true) (hq : r.inner.buf.is_empty = true) (k : Nat) :
    (try_read r k).1 = 0
    ∧ wf (try_read r k).2.2.inner.buf
    ∧ (try_read r k).2.2.inner.end_of_file = true
    ∧ (try_read r k).2.2.inner.buf.is_empty = true := by
  have hC : r.inner.buf.consumable = 0 := by
    unfold is_empty at hq
    simpa using hq
  have hcnt := consume_count r.inner.buf h k
  have hwf2 := consume_wf r.inner.buf h k
  have hcons := consume_consumable r.inner.buf h k
  have hn : (r.inner.buf.consume k).1.1 = 0 := by omega
  have hemp2 : (r.inner.buf.consume k).2.is_empty = true := by
    unfold is_empty
    rw [hcons, hC]
    simp
  unfold try_read
  dsimp only
  split_ifs <;>
    solve
      | exact ⟨rfl, h, he, hq⟩
      | exact ⟨by rw [hn]; rfl, hwf2, he, hemp2⟩
      | (exfalso; simp_all)

/-- Every read after end-of-file from a drained buffer returns 0, over any
sequence of reads. -/
theorem runReads_eof (ks : List Nat) : ∀ r : ReceiverSys, wf r.inner.buf →
    r.inner.end_of_file = true → r.inner.buf.is_empty = true →
    ∀ x ∈ runReads r ks, x = 0 := by
  induction ks with
  | nil =>
    intro r h he hq x hx
    cases hx
  | cons k ks ih =>
    intro r h he hq x hx
    obtain ⟨h0, h1, h2, h3⟩ := try_read_at_eof r h he hq k
    rw [runReads] at hx
    rcases List.mem_cons.mp hx with hx | hx
    · rw [hx]
      exact h0
    · exact ih _ h1 h2 h3 x hx

/-- C5: end-of-file is sticky and not an error, and reads return 0 forever
once it is observed and the buffer has drained. -/
theorem receiver_eof_sticky (r : ReceiverSys) (h : wf r.inner.buf) :
    eofStickyContract r := by
  refine ⟨?_, ?_, ?_, ?_, ?_⟩
  · unfold receiver_complete
    dsimp only
    rw [if_neg (by decide), if_pos rfl]
  · unfold receiver_complete
    dsimp only
    rw [if_neg (by decide), if_pos rfl]
  · intro v hv
    unfold receiver_complete
    dsimp only
    split_ifs <;>
      solve
        | rfl
        | exact hv
        | (rw [(fill_buf_facts _ (pwc_wf r.inner.buf h v.toNat)).2.2.2.2.1]; exact hv)
  · intro k hv
    unfold try_read
    dsimp only
    split_ifs <;>
      (try rcases herr : r.common.error with _ | e) <;>
      solve
        | exact hv
        | (rw [(fill_buf_facts _ (consume_wf r.inner.buf h k)).2.2.2.2.1]; exact hv)
  · intro he hq ks
    exact runReads_eof ks r h he hq

/-- Witness for C5 at a concrete receiver. -/
theorem receiver_eof_sticky_witness :
    wf (ReceiverSys.mk
        (ReceiverInner.mk (CircularBuf.mk 0 3 1 1 (fun _ => 0)) false true)
        (CommonState.mk 6 Events.empty none)).inner.buf
    ∧ eofStickyContract
        (ReceiverSys.mk
          (ReceiverInner.mk (CircularBuf.mk 0 3 1 1 (fun _ => 0)) false true)
          (CommonState.mk 6 Events.empty none)) :=
  ⟨by decide, receiver_eof_sticky _ (by decide)⟩

theorem alloc_snd_ptr (s : RawSlab) : (s.alloc).2.buf_ptr = s.buf_ptr := by
  unfold RawSlab.alloc
  cases h : s.free_indexes.getLast? <;> rfl

theorem alloc_snd_len (s : RawSlab) : (s.alloc).2.buf_len = s.buf_len := by
  unfold RawSlab.alloc
  cases h : s.free_indexes.getLast? <;> rfl

theorem runSlab_dims (ops : List SlabOp) : ∀ s : RawSlab,
    (runSlab s ops).buf_ptr = s.buf_ptr ∧ (runSlab s ops).buf_len = s.buf_len := by
  induction ops with
  | nil => exact fun s => ⟨rfl, rfl⟩
  | cons op ops ih =>
    intro s
    cases op with
    | alloc =>
      rw [runSlab]
      exact ⟨((ih _).1).trans (alloc_snd_ptr s), ((ih _).2).trans (alloc_snd_len s)⟩
    | dealloc p =>
      rw [runSlab]
      exact ⟨(ih _).1, (ih _).2⟩

/-- A free index that is absent stays absent along any run whose deallocs
never target it. -/
theorem runSlab_avoid (i : Nat) (ops : List SlabOp) : ∀ t : RawSlab,
    (∀ q, SlabOp.dealloc q ∈ ops → q - t.buf_ptr ≠ i) →
    i ∉ t.free_indexes → i ∉ (runSlab t ops).free_indexes := by
  induction ops with
  | nil => exact fun t _ h2 => h2
  | cons op ops ih =>
    intro t hq h2
    cases op with
    | alloc =>
      rw [runSlab]
      refine ih _ ?_ ?_
      · intro q hmem
        rw [alloc_snd_ptr]
        exact hq q (List.mem_cons_of_mem _ hmem)
      · unfold RawSlab.alloc
        cases h : t.free_indexes.getLast? with
        | none => exact h2
        | some a =>
          dsimp only
          intro hmem
          exact h2 ((List.dropLast_sublist _).mem hmem)
    | dealloc q =>
      rw [runSlab]
      refine ih _ ?_ ?_
      · intro q' hmem
        exact hq q' (List.mem_cons_of_mem _ hmem)
      · unfold RawSlab.dealloc
        dsimp only
        intro hmem
        rcases List.mem_append.mp hmem with hmem | hmem
        · exact h2 hmem
        · have hiq : i = q - t.buf_ptr := by simpa using hmem
          exact hq q (List.mem_cons_self _ _) hiq.symm

/-- C9: `RawSlab::alloc` satisfies its contract on any state whose free
list is duplicate-free, in-bounds and no longer than the capacity. -/
theorem rawSlab_alloc_contract (s : RawSlab)
    (hnd : s.free_indexes.Nodup)
    (hlt : ∀ i ∈ s.free_indexes, i < s.buf_len)
    (hlen : s.free_indexes.length ≤ s.buf_len) :
    rawSlabContract s := by
  refine ⟨?_, ?_, ?_, fun ops => ⟨(runSlab_dims ops s).2, (runSlab_dims ops s).1⟩⟩
  · unfold RawSlab.alloc RawSlab.allocated RawSlab.capacity
    cases h : s.free_indexes.getLast? with
    | none =>
      rw [List.getLast?_eq_none_iff] at h
      simp [h]
    | some a =>
      have hmem : a ∈ s.free_indexes := by
        rw [← List.dropLast_append_getLast? a h]
        simp
      have ha := hlt a hmem
      have hne : 0 < s.free_indexes.length :=
        List.length_pos.mpr (List.ne_nil_of_mem hmem)
      dsimp only
      constructor
      · intro hco
        cases hco
      · intro hco
        exfalso
        omega
  · intro p s' halloc
    unfold RawSlab.alloc at halloc
    cases h : s.free_indexes.getLast? with
    | none =>
      rw [h] at halloc
      cases halloc
    | some a =>
      rw [h] at halloc
      dsimp only at halloc
      injection halloc with h1 h2
      injection h1 with h1
      have hmem : a ∈ s.free_indexes := by
        rw [← List.dropLast_append_getLast? a h]
        simp
      have ha := hlt a hmem
      have hne : 0 < s.free_indexes.length :=
        List.length_pos.mpr (List.ne_nil_of_mem hmem)
      have hnotin : a ∉ s.free_indexes.dropLast := by
        have hnd2 := hnd
        rw [← List.dropLast_append_getLast? a h] at hnd2
        simp [List.nodup_append] at hnd2
        exact hnd2.2
      subst h2
      refine ⟨⟨a, hmem, h1.symm⟩, by omega,
        by unfold RawSlab.capacity; omega, rfl, ?_, ?_, ?_⟩
      · rw [show p - s.buf_ptr = a from by omega]
        exact hnotin
      · unfold RawSlab.allocated RawSlab.capacity
        dsimp only
        rw [List.length_dropLast]
        omega
      · intro ops hops
        refine runSlab_avoid _ ops _ ?_ ?_
        · intro q hqmem
          obtain ⟨hq1, hq2⟩ := hops q hqmem
          dsimp only
          omega
        · rw [show p - s.buf_ptr = a from by omega]
          exact hnotin
  · intro t p hpt hple hnot
    unfold RawSlab.alloc
    cases h : t.free_indexes.getLast? with
    | none => simp
    | some a =>
      dsimp only
      intro hco
      injection hco with hco
      have hmem : a ∈ t.free_indexes := by
        rw [← List.dropLast_append_getLast? a h]
        simp
      apply hnot
      rw [show p - s.buf_ptr = a from by omega]
      exact hmem

/-- Witness for C9 at a fresh three-slot slab based at pointer 100. -/
theorem rawSlab_alloc_contract_witness :
    ((RawSlab.new 100 3).free_indexes.Nodup
      ∧ (∀ i ∈ (RawSlab.new 100 3).free_indexes, i < (RawSlab.new 100 3).buf_len)
      ∧ (RawSlab.new 100 3).free_indexes.length ≤ (RawSlab.new 100 3).buf_len)
    ∧ rawSlabContract (RawSlab.new 100 3) :=
  ⟨⟨by decide, by decide, by decide⟩,
    rawSlab_alloc_contract _ (by decide) (by decide) (by decide)⟩

/-- C8: `shutdown` sets the flag and unconditionally raises HUP on the
connector's private pollee, leaving the shared state untouched, and a
subsequent `connect` returns `-EPIPE` immediately without submitting
anything or mutating any state. -/
theorem connector_shutdown_then_connect (cn : ConnectorState) (c : CommonState)
    (addr : Nat) :
    (connector_shutdown cn c).1.is_shutdown = true
    ∧ (connector_shutdown cn c).1.private_pollee.rHup = true
    ∧ (connector_shutdown cn c).2 = c
    ∧ (connector_shutdown cn c).1.pending_io = cn.pending_io
    ∧ (∀ c' : CommonState,
        connect (connector_shutdown cn c).1 c' addr
          = (some (-EPIPE), (connector_shutdown cn c).1, c')) := by
  refine ⟨rfl, ?_, rfl, rfl, fun c' => ?_⟩
  · simp [connector_shutdown, Events.add, Events.HUP]
  · unfold connect
    rw [if_pos (show (connector_shutdown cn c).1.is_shutdown = true from rfl)]

theorem countP_set {α : Type} (p : α → Bool) (l : List α) :
    ∀ (i : Nat) (a : α), i < l.length →
    (l.set i a).countP p + (if p (l.getD i a) then 1 else 0)
      = l.countP p + (if p a then 1 else 0) := by
  induction l with
  | nil =>
    intro i a hi
    cases hi
  | cons x xs ih =>
    intro i a hi
    cases i with
    | zero =>
      simp only [List.set_cons_zero, List.countP_cons, List.getD_cons_zero]
      split_ifs <;> omega
    | succ n =>
      simp only [List.set_cons_succ, List.countP_cons, List.getD_cons_succ]
      have := ih n a (by simpa using Nat.lt_of_succ_lt_succ hi)
      split_ifs at this ⊢ <;> omega

theorem vacantKey_spec (s : SlabA) (h : s.len < s.capacity) :
    s.vacantKey < s.entries.length ∧ s.entries.getD s.vacantKey none = none := by
  have hex : ∃ o ∈ s.entries, Option.isNone o := by
    by_contra hall
    push_neg at hall
    have : s.entries.countP Option.isSome = s.entries.length := by
      rw [List.countP_eq_length]
      intro o ho
      have := hall o ho
      cases o with
      | none => simp at this
      | some v => rfl
    unfold SlabA.len SlabA.capacity at h
    omega
  have hlt : s.vacantKey < s.entries.length :=
    List.findIdx_lt_length_of_exists hex
  refine ⟨hlt, ?_⟩
  have hp : Option.isNone (s.entries[s.vacantKey]) = true := List.findIdx_getElem
  rw [List.getD_eq_getElem _ _ hlt]
  cases hg : s.entries[s.vacantKey] with
  | none => rfl
  | some v =>
    rw [hg] at hp
    cases hp

theorem insert_capacity (s : SlabA) (a : Accept) :
    (s.insert a).capacity = s.capacity := by
  unfold SlabA.insert SlabA.capacity
  exact List.length_set ..

theorem insert_len (s : SlabA) (a : Accept) (h : s.len < s.capacity) :
    (s.insert a).len = s.len + 1 := by
  obtain ⟨hv1, hv2⟩ := vacantKey_spec s h
  have hc := countP_set Option.isSome s.entries s.vacantKey (some a) hv1
  have hd : s.entries.getD s.vacantKey (some a) = s.entries.getD s.vacantKey none := by
    rw [List.getD_eq_getElem _ _ hv1, List.getD_eq_getElem _ _ hv1]
  rw [hd, hv2] at hc
  unfold SlabA.insert SlabA.len
  simp only [Option.isSome] at hc
  simpa using hc

theorem insert_completedCount (s : SlabA) (addr : Nat) (h : s.len < s.capacity) :
    (s.insert (Accept.pending addr)).completedCount = s.completedCount := by
  obtain ⟨hv1, hv2⟩ := vacantKey_spec s h
  have hc := countP_set (fun o => (o.map Accept.isCompleted).getD false) s.entries
    s.vacantKey (some (Accept.pending addr)) hv1
  have hd : s.entries.getD s.vacantKey (some (Accept.pending addr))
      = s.entries.getD s.vacantKey none := by
    rw [List.getD_eq_getElem _ _ hv1, List.getD_eq_getElem _ _ hv1]
  rw [hd, hv2] at hc
  unfold SlabA.insert SlabA.completedCount
  simp only [Option.map, Option.getD, Accept.isCompleted] at hc
  simpa using hc

theorem get_some_lt (s : SlabA) (i : Nat) (x : Accept) (h : s.get i = some x) :
    i < s.entries.length := by
  by_contra hge
  push_neg at hge
  unfold SlabA.get at h
  rw [List.getD_eq_default _ _ hge] at h
  cases h

theorem remove_capacity (s : SlabA) (i : Nat) :
    (s.remove i).capacity = s.capacity := by
  unfold SlabA.remove SlabA.capacity
  exact List.length_set ..

theorem remove_len (s : SlabA) (i : Nat) (x : Accept) (h : s.get i = some x) :
    (s.remove i).len + 1 = s.len := by
  have hi := get_some_lt s i x h
  have hc := countP_set Option.isSome s.entries i none hi
  unfold SlabA.get at h
  rw [h] at hc
  unfold SlabA.remove SlabA.len
  simp only [Option.isSome] at hc
  simpa using hc

theorem remove_completedCount (s : SlabA) (i : Nat) (addr : Nat) (fd : Int)
    (h : s.get i = some (Accept.completed addr fd)) :
    (s.remove i).completedCount + 1 = s.completedCount := by
  have hi := get_some_lt s i _ h
  have hc := countP_set (fun o => (o.map Accept.isCompleted).getD false)
    s.entries i none hi
  unfold SlabA.get at h
  rw [h] at hc
  unfold SlabA.remove SlabA.completedCount
  simp only [Option.map, Option.getD, Accept.isCompleted] at hc
  simpa using hc

theorem len_le_capacity (s : SlabA) : s.len ≤ s.capacity :=
  List.countP_le_length _

/-- The refill loop fills the slab back to capacity whenever the address
slab has exactly enough free slots, touching neither the completed queue,
the address memory, nor the completed count. -/
theorem iaaLoop_spec (fuel : Nat) : ∀ a : AcceptorState,
    a.accept_slab.capacity ≤ a.accept_slab.len + fuel →
    a.accept_slab.capacity
        ≤ a.accept_slab.len + a.addr_raw_slab.free_indexes.length →
    ∃ a', iaaLoop fuel a = some a'
      ∧ a'.accept_slab.len = a'.accept_slab.capacity
      ∧ a'.accept_slab.capacity = a.accept_slab.capacity
      ∧ a'.completed_indexes = a.completed_indexes
      ∧ a'.addrMem = a.addrMem
      ∧ a'.accept_slab.completedCount = a.accept_slab.completedCount := by
  induction fuel with
  | zero =>
    intro a h1 h2
    have hle := len_le_capacity a.accept_slab
    rw [iaaLoop, if_neg (by omega)]
    exact ⟨a, rfl, by omega, rfl, rfl, rfl, rfl⟩
  | succ fuel ih =>
    intro a h1 h2
    rw [iaaLoop]
    by_cases hlt : a.accept_slab.len < a.accept_slab.capacity
    · rw [if_pos hlt]
      have hfree : a.addr_raw_slab.free_indexes ≠ [] := by
        intro hempty
        rw [hempty] at h2
        simp at h2
        omega
      obtain ⟨x, hx⟩ : ∃ x, a.addr_raw_slab.free_indexes.getLast? = some x := by
        cases hxx : a.addr_raw_slab.free_indexes.getLast? with
        | none => exact absurd (List.getLast?_eq_none_iff.mp hxx) hfree
        | some y => exact ⟨y, rfl⟩
      unfold RawSlab.alloc
      rw [hx]
      dsimp only
      have hfl : 0 < a.addr_raw_slab.free_indexes.length :=
        List.length_pos.mpr hfree
      obtain ⟨a', ha1, ha2, ha3, ha4, ha5, ha6⟩ := ih
        { a with
          accept_slab :=
            a.accept_slab.insert (Accept.pending (a.addr_raw_slab.buf_ptr + x)),
          addr_raw_slab :=
            { a.addr_raw_slab with
              free_indexes := a.addr_raw_slab.free_indexes.dropLast } }
        (by
          dsimp only
          rw [insert_capacity, insert_len _ _ hlt]
          omega)
        (by
          dsimp only
          rw [insert_capacity, insert_len _ _ hlt, List.length_dropLast]
          omega)
      refine ⟨a', ?_, ha2, ?_, ha4, ha5, ?_⟩
      · exact ha1
      · rw [ha3]
        dsimp only
        rw [insert_capacity]
      · rw [ha6]
        dsimp only
        rw [insert_completedCount _ _ hlt]
    · rw [if_neg hlt]
      exact ⟨a, rfl, by have := len_le_capacity a.accept_slab; omega, rfl, rfl, rfl, rfl⟩

theorem initiate_spec (a : AcceptorState)
    (h2 : a.accept_slab.capacity
        ≤ a.accept_slab.len + a.addr_raw_slab.free_indexes.length) :
    ∃ a', initiate_async_accepts a = some a'
      ∧ a'.accept_slab.len = a'.accept_slab.capacity
      ∧ a'.accept_slab.capacity = a.accept_slab.capacity
      ∧ a'.completed_indexes = a.completed_indexes
      ∧ a'.addrMem = a.addrMem
      ∧ a'.accept_slab.completedCount = a.accept_slab.completedCount :=
  iaaLoop_spec (a.accept_slab.capacity - a.accept_slab.len) a (by omega) h2

/-- C7: `Acceptor::try_accept` satisfies its contract. -/
theorem acceptor_try_accept_contract (a : AcceptorState) (c : CommonState)
    (wantAddr : Bool) : tryAcceptContract a c wantAddr := by
  refine ⟨?_, ?_, ?_, ?_⟩
  · intro e hq herr
    unfold try_accept
    rw [hq, herr]
  · intro hq herr
    unfold try_accept
    rw [hq, herr]
  · intro i rest addr fd hq hslot hinv
    have hlen3 := remove_len a.accept_slab i _ hslot
    have hcc3 := remove_completedCount a.accept_slab i addr fd hslot
    unfold try_accept
    rw [hq]
    dsimp only
    rw [show ({ a with completed_indexes := rest } : AcceptorState).accept_slab.get i
        = some (Accept.completed addr fd) from hslot]
    dsimp only
    obtain ⟨a4, hrun, h4full, h4cap, h4idx, h4mem, h4cc⟩ := initiate_spec
      { a with
        completed_indexes := rest,
        addr_raw_slab := a.addr_raw_slab.dealloc addr,
        accept_slab := a.accept_slab.remove i }
      (by
        dsimp only
        unfold RawSlab.dealloc
        dsimp only
        rw [remove_capacity, List.length_append]
        simp only [List.length_cons, List.length_nil]
        unfold SlabA.capacity at hinv ⊢
        omega)
    rw [show initiate_async_accepts
        { a with
          completed_indexes := rest,
          addr_raw_slab := a.addr_raw_slab.dealloc addr,
          accept_slab := a.accept_slab.remove i } = some a4 from hrun]
    dsimp only
    refine ⟨a4, rfl, h4idx.trans rfl, h4full, h4cap.trans (remove_capacity a.accept_slab i),
      ?_, h4mem.trans rfl⟩
    rw [show a4.accept_slab.completedCount
        = (a.accept_slab.remove i).completedCount from h4cc]
    exact hcc3
  · intro i addr v hslot hv
    unfold accept_complete
    rw [hslot]
    dsimp only
    rw [if_neg (by omega)]
    exact ⟨_, _, rfl, rfl, by simp [Events.add, Events.IN]⟩

/-- Witness for C7 at a concrete two-slot acceptor with one completed and
one pending accept. -/
theorem acceptor_try_accept_contract_witness :
    tryAcceptContract
      (AcceptorState.mk
        (SlabA.mk [some (Accept.completed 50 9), some (Accept.pending 51)])
        (RawSlab.mk 50 2 [])
        (fun p => p + 7)
        [0])
      (CommonState.mk 4 Events.IN none) true :=
  acceptor_try_accept_contract _ _ true


end AsyncSocket

